import Mathlib

/-
Verification development for the TradeFlow matching core.

Shallow embedding of:
  * the transaction lifecycle state machine (app/models/transaction.py),
  * the three matching algorithms (app/matching_engine/matcher.py),
  * the orchestrator's scrub step and store-operation schedule
    (app/matching_engine/engine.py, app/matching_engine/timeout_handler.py),
  * the payment-to-pool ingestion path (app/api/webhooks.py),
  * the priority function (canonical three-factor form; the callers in
    app/api/webhooks.py and the tests use this signature).

Monetary amounts are embedded as rationals (the source uses arbitrary
precision Decimal); timestamps as integers (hours). Python dict-based pool
entries become the structure `Entry`; `entry.get("source_amount")` becomes
the field `source_amount`. The matchers are pure in the source (they only
read the pool lists and build fresh match dicts), so the embedding's purity
mirrors the code: input pools are never mutated.
-/

namespace TradeFlow

/-! ## Transaction state machine (app/models/transaction.py) -/

/-- The 12 lifecycle states of `TransactionStatus`. -/
inductive TransactionStatus where
  | initiated
  | funded
  | matching
  | matched
  | partialMatched
  | pendingSettlement
  | settling
  | completed
  | failed
  | refunded
  | cancelled
  | expired
deriving DecidableEq, Repr, Fintype

/-- The `VALID_TRANSITIONS` map of transaction.py (sets become lists). -/
def validTransitions : TransactionStatus → List TransactionStatus
  | .initiated => [.funded, .cancelled, .expired]
  | .funded => [.matching, .cancelled, .expired]
  | .matching => [.matched, .partialMatched, .expired]
  | .matched => [.pendingSettlement]
  | .partialMatched => [.pendingSettlement, .matching]
  | .pendingSettlement => [.settling, .failed]
  | .settling => [.completed, .failed]
  | .completed => []
  | .failed => [.refunded]
  | .refunded => []
  | .cancelled => []
  | .expired => [.refunded]

/-- `TransactionDirection` of transaction.py. -/
inductive TransactionDirection where
  | ngn_to_cny
  | cny_to_ngn
deriving DecidableEq, Repr

/-- The `Transaction` model: the fields the ingestion path and the state
machine read or write. Timestamps are abstract instants (hours). -/
structure Transaction where
  id : String
  trader_id : String
  reference : String
  direction : TransactionDirection
  source_amount : ℚ
  fee_amount : ℚ
  status : TransactionStatus
  funded_at : Option ℤ
  matched_at : Option ℤ
  settled_at : Option ℤ
deriving DecidableEq, Repr

/-- `Transaction.is_valid_transition` (transaction.py line 230). -/
def Transaction.is_valid_transition (from_status to_status : TransactionStatus) : Bool :=
  decide (to_status ∈ validTransitions from_status)

/-- `Transaction.transition_to` (transaction.py line 235): raising ValueError
becomes returning `Except.error`, which leaves the transaction unchanged (the
source raises before any mutation). On success the status is set and the
lifecycle timestamp for the new status is stamped (the source's if/elif). -/
def Transaction.transition_to (txn : Transaction) (new_status : TransactionStatus)
    (now : ℤ) : Except String Transaction :=
  if ¬ Transaction.is_valid_transition txn.status new_status then
    Except.error "Invalid transition"
  else
    let txn1 := { txn with status := new_status }
    if new_status = TransactionStatus.funded then
      Except.ok { txn1 with funded_at := some now }
    else if new_status = TransactionStatus.matched ∨
        new_status = TransactionStatus.partialMatched then
      Except.ok { txn1 with matched_at := some now }
    else if new_status = TransactionStatus.completed then
      Except.ok { txn1 with settled_at := some now }
    else
      Except.ok txn1

/-- The transition table exactly as the specification's section 4.2 lists it,
row by row (COMPLETED, CANCELLED, REFUNDED have no row entries: terminal). -/
def specTransitionTable : List (TransactionStatus × TransactionStatus) :=
  [(.initiated, .funded), (.initiated, .cancelled), (.initiated, .expired),
   (.funded, .matching), (.funded, .cancelled), (.funded, .expired),
   (.matching, .matched), (.matching, .partialMatched), (.matching, .expired),
   (.matched, .pendingSettlement),
   (.partialMatched, .pendingSettlement), (.partialMatched, .matching),
   (.pendingSettlement, .settling), (.pendingSettlement, .failed),
   (.settling, .completed), (.settling, .failed),
   (.failed, .refunded),
   (.expired, .refunded)]

/-! ## Pool entries and match descriptors (app/matching_engine/matcher.py) -/

/-- A pool snapshot entry: the dict built by `PoolManager.get_pool_snapshot`
and read by the matchers and the engine. `source_amount` is the matchable
amount (`_amount` in matcher.py reads it). -/
structure Entry where
  id : String
  transaction_id : String
  direction : String
  source_amount : ℚ
  entered_pool_at : ℤ
  score : ℚ
deriving DecidableEq, Repr

/-- `_amount` (matcher.py line 37): extract the matchable amount. -/
def entryAmount (e : Entry) : ℚ := e.source_amount

/-- `EXACT_TOLERANCE_PCT = Decimal("0.5")` (matcher.py line 29). -/
def EXACT_TOLERANCE_PCT : ℚ := 1/2

/-- `MULTI_MIN_FILL_PCT = Decimal("95")` (matcher.py line 30). -/
def MULTI_MIN_FILL_PCT : ℚ := 95

/-- `MULTI_MAX_LEGS = 10` (matcher.py line 31). -/
def MULTI_MAX_LEGS : ℕ := 10

/-- `PARTIAL_MIN_PCT = Decimal("10")` (matcher.py line 32). -/
def PARTIAL_MIN_PCT : ℚ := 10

/-- A match descriptor: the dicts the three matchers return. The `type` key
becomes the constructor; `exactM`/`partM` carry `pool_a_entry`,
`pool_b_entry` and `matched_amount` (plus the two remainder amounts for
partial), `multiM` carries `pool_a_entry` (the target), `pool_b_entries`
(the legs), `matched_amount`, `leg_count` and `fill_pct`. -/
inductive MatchDesc where
  | exactM (pool_a_entry pool_b_entry : Entry) (matched_amount : ℚ)
  | multiM (pool_a_entry : Entry) (pool_b_entries : List Entry)
      (matched_amount : ℚ) (leg_count : ℕ) (fill_pct : ℚ)
  | partM (pool_a_entry pool_b_entry : Entry) (matched_amount : ℚ)
      (pool_a_remaining pool_b_remaining : ℚ)
deriving DecidableEq, Repr

/-- Python's `enumerate`, starting at `n`. -/
def enumFrom (n : ℕ) : List α → List (ℕ × α)
  | [] => []
  | a :: l => (n, a) :: enumFrom (n + 1) l

/-! ## Exact matching (matcher.py, `run_exact_matching`, lines 50-104) -/

/-- The inner `for j, b in enumerate(pool_b)` loop of `run_exact_matching`:
skip consumed indices and non-positive amounts, stop at the first entry
within tolerance of `aAmt`. -/
def exactScan (aAmt tol : ℚ) (usedB : List ℕ) : List (ℕ × Entry) → Option (ℕ × Entry)
  | [] => none
  | (j, b) :: rest =>
    if j ∈ usedB then exactScan aAmt tol usedB rest
    else if entryAmount b ≤ 0 then exactScan aAmt tol usedB rest
    else if |aAmt - entryAmount b| / aAmt * 100 ≤ tol then some (j, b)
    else exactScan aAmt tol usedB rest

/-- The outer `for i, a in enumerate(pool_a)` loop of `run_exact_matching`,
carrying the `used_a` and `used_b` index sets. -/
def exactGo (poolB : List (ℕ × Entry)) (tol : ℚ) :
    List (ℕ × Entry) → List ℕ → List ℕ → List MatchDesc
  | [], _, _ => []
  | (i, a) :: rest, usedA, usedB =>
    if i ∈ usedA then exactGo poolB tol rest usedA usedB
    else if entryAmount a ≤ 0 then exactGo poolB tol rest usedA usedB
    else
      match exactScan (entryAmount a) tol usedB poolB with
      | some (j, b) =>
          MatchDesc.exactM a b (min (entryAmount a) (entryAmount b)) ::
            exactGo poolB tol rest (i :: usedA) (j :: usedB)
      | none => exactGo poolB tol rest usedA usedB

/-- `run_exact_matching` (matcher.py line 50). -/
def run_exact_matching (pool_a pool_b : List Entry)
    (tolerance_pct : ℚ := EXACT_TOLERANCE_PCT) : List MatchDesc :=
  exactGo (enumFrom 0 pool_b) tolerance_pct (enumFrom 0 pool_a) [] []

/-! ## Multi-leg matching (matcher.py, `_greedy_multi` and
`run_multi_matching`, lines 110-210) -/

/-- The candidate loop of `_greedy_multi`: skip consumed, non-positive and
target-or-larger candidates; append the rest, breaking after an append once
`MULTI_MAX_LEGS` legs are collected or the assembled total reaches the
target. Legs and their indices are accumulated as pairs. -/
def greedyScan (targetAmt : ℚ) (cands : List (ℕ × Entry)) (used : List ℕ)
    (acc : List (ℕ × Entry)) (assembled : ℚ) : List (ℕ × Entry) × ℚ :=
  match cands with
  | [] => (acc, assembled)
  | (idx, c) :: rest =>
    if idx ∈ used then greedyScan targetAmt rest used acc assembled
    else if entryAmount c ≤ 0 then greedyScan targetAmt rest used acc assembled
    else if targetAmt ≤ entryAmount c then greedyScan targetAmt rest used acc assembled
    else
      let acc2 := acc ++ [(idx, c)]
      let assembled2 := assembled + entryAmount c
      if MULTI_MAX_LEGS ≤ acc2.length then (acc2, assembled2)
      else if targetAmt ≤ assembled2 then (acc2, assembled2)
      else greedyScan targetAmt rest used acc2 assembled2

/-- `_greedy_multi` (matcher.py line 110): returns the match descriptor and
the updated `used_indices` (the source mutates the set in place; consumed
leg indices are appended only when a match is emitted). -/
def greedyMulti (target : Entry) (candidates : List Entry) (used_indices : List ℕ) :
    Option (MatchDesc × List ℕ) :=
  if entryAmount target ≤ 0 then none
  else
    let scanned := greedyScan (entryAmount target) (enumFrom 0 candidates) used_indices [] 0
    if scanned.1 = [] then none
    else
      let fill_pct := scanned.2 / entryAmount target * 100
      if fill_pct < MULTI_MIN_FILL_PCT then none
      else
        some (MatchDesc.multiM target (scanned.1.map Prod.snd)
            (min scanned.2 (entryAmount target)) (scanned.1.map Prod.snd).length fill_pct,
          used_indices ++ scanned.1.map Prod.fst)

/-- One direction of `run_multi_matching` (matcher.py line 174): each target
not yet consumed is tried against the fill pool; on success the target index
joins `usedT` and the leg indices join `usedF`. -/
def multiDir (fills : List Entry) :
    List (ℕ × Entry) → List ℕ → List ℕ → List MatchDesc × List ℕ × List ℕ
  | [], usedT, usedF => ([], usedT, usedF)
  | (i, t) :: rest, usedT, usedF =>
    if i ∈ usedT then multiDir fills rest usedT usedF
    else
      match greedyMulti t fills usedF with
      | some (m, usedF2) =>
          let r := multiDir fills rest (usedT ++ [i]) usedF2
          (m :: r.1, r.2)
      | none => multiDir fills rest usedT usedF

/-- `run_multi_matching` (matcher.py line 174): direction 1 takes pool_a
entries as targets filled from pool_b, direction 2 takes pool_b entries as
targets filled from pool_a, sharing the two used-index sets. -/
def run_multi_matching (pool_a pool_b : List Entry) : List MatchDesc :=
  let d1 := multiDir pool_b (enumFrom 0 pool_a) [] []
  let d2 := multiDir pool_a (enumFrom 0 pool_b) d1.2.2 d1.2.1
  d1.1 ++ d2.1

/-! ## Partial matching (matcher.py, `run_partial_matching`, lines 216-280) -/

/-- The inner sell-pool loop of `run_partial_matching`, with the source's two
rejection tests (overlap below `PARTIAL_MIN_PCT`% of the smaller side, then
of the larger side). -/
def partScan (aAmt : ℚ) (usedB : List ℕ) : List (ℕ × Entry) → Option (ℕ × Entry)
  | [] => none
  | (j, b) :: rest =>
    if j ∈ usedB then partScan aAmt usedB rest
    else if entryAmount b ≤ 0 then partScan aAmt usedB rest
    else
      let matched := min aAmt (entryAmount b)
      let smaller := min aAmt (entryAmount b)
      if 0 < smaller ∧ matched / smaller * 100 < PARTIAL_MIN_PCT then
        partScan aAmt usedB rest
      else
        let larger := max aAmt (entryAmount b)
        if 0 < larger ∧ matched / larger * 100 < PARTIAL_MIN_PCT then
          partScan aAmt usedB rest
        else some (j, b)

/-- The outer buy-pool loop of `run_partial_matching`. -/
def partGo (poolB : List (ℕ × Entry)) :
    List (ℕ × Entry) → List ℕ → List ℕ → List MatchDesc
  | [], _, _ => []
  | (i, a) :: rest, usedA, usedB =>
    if i ∈ usedA then partGo poolB rest usedA usedB
    else if entryAmount a ≤ 0 then partGo poolB rest usedA usedB
    else
      match partScan (entryAmount a) usedB poolB with
      | some (j, b) =>
          MatchDesc.partM a b (min (entryAmount a) (entryAmount b))
              (entryAmount a - min (entryAmount a) (entryAmount b))
              (entryAmount b - min (entryAmount a) (entryAmount b)) ::
            partGo poolB rest (i :: usedA) (j :: usedB)
      | none => partGo poolB rest usedA usedB

/-- `run_partial_matching` (matcher.py line 216). -/
def runPartialMatching (pool_a pool_b : List Entry) : List MatchDesc :=
  partGo (enumFrom 0 pool_b) (enumFrom 0 pool_a) [] []

/-! ## Orchestrator scrub and pipeline
(app/matching_engine/engine.py, `_remove_matched_entries` lines 179-207 and
`_execute_cycle` lines 89-175) -/

/-- The entry ids collected from one match dict by
`MatchingEngine._remove_matched_entries`: `pool_a_entry`, `pool_b_entry`
when present, and every `pool_b_entries` leg. -/
def matchConsumedIds : MatchDesc → List String
  | .exactM a b _ => [a.id, b.id]
  | .multiM t legs _ _ _ => [t.id] ++ legs.map Entry.id
  | .partM a b _ _ _ => [a.id, b.id]

/-- The ids a matching pass consumed, as the scrub step computes them:
all referenced ids with `""` discarded (`consumed_ids.discard("")`). -/
def scrubIds (ms : List MatchDesc) : List String :=
  ((ms.map matchConsumedIds).flatten).filter (fun s => ¬ s = "")

/-- `MatchingEngine._remove_matched_entries`: filter out of both in-memory
pool lists every entry whose id is in the consumed-id set. -/
def removeMatchedEntries (buy_pool sell_pool : List Entry)
    (ms : List MatchDesc) : List Entry × List Entry :=
  (buy_pool.filter (fun e => ¬ e.id ∈ scrubIds ms),
   sell_pool.filter (fun e => ¬ e.id ∈ scrubIds ms))

/-- The three matching passes of `MatchingEngine._execute_cycle` (steps 2-6):
exact, scrub, multi, scrub, partial. Returns the three match lists. -/
def runPipeline (buy_pool sell_pool : List Entry) :
    List MatchDesc × List MatchDesc × List MatchDesc :=
  let exact_matches := run_exact_matching buy_pool sell_pool
  let s1 := removeMatchedEntries buy_pool sell_pool exact_matches
  let multi_matches := run_multi_matching s1.1 s1.2
  let s2 := removeMatchedEntries s1.1 s1.2 multi_matches
  let partial_matches := runPartialMatching s2.1 s2.2
  (exact_matches, multi_matches, partial_matches)

/-! ## Store operations of a cycle (engine.py persist helpers and
app/matching_engine/timeout_handler.py) -/

/-- A pool-store mutation: `PoolManager.remove_from_pool` or
`PoolManager.update_entry_amount`. -/
inductive StoreOp where
  | removeOp (entry_id direction : String)
  | updateOp (entry_id : String) (new_amount : ℚ)
deriving DecidableEq, Repr

/-- Whether a store operation runs before or after the cycle's single DB
transaction commits. -/
inductive Phase where
  | beforeCommit
  | afterCommit
deriving DecidableEq, Repr

/-- `MatchingEngine._is_buy_side` (engine.py line 611). -/
def isBuySide (e : Entry) : Bool := e.direction = "ngn_to_cny"

/-- `MatchingEngine._classify_buy_sell` (engine.py line 598). -/
def classifyBuySell (a b : Entry) : Entry × Entry :=
  if isBuySide a then (a, b) else (b, a)

/-- The deferred `redis_ops` one match contributes, as collected by
`_persist_exact_match` (lines 256-257), `_persist_multi_match` (lines
317-332) and `_persist_partial_match` (lines 390-402). -/
def persistStoreOps : MatchDesc → List StoreOp
  | .exactM a b _ =>
    let bs := classifyBuySell a b
    [StoreOp.removeOp bs.1.id bs.1.direction, StoreOp.removeOp bs.2.id bs.2.direction]
  | .multiM target legs _ _ _ =>
    legs.map (fun leg => StoreOp.removeOp leg.id leg.direction) ++
      [StoreOp.removeOp target.id target.direction]
  | .partM a b _ ra rb =>
    let bs := classifyBuySell a b
    let buy_remaining := if isBuySide a then ra else rb
    let sell_remaining := if isBuySide a then rb else ra
    (if buy_remaining = 0 then [StoreOp.removeOp bs.1.id bs.1.direction]
     else [StoreOp.updateOp bs.1.id buy_remaining]) ++
    (if sell_remaining = 0 then [StoreOp.removeOp bs.2.id bs.2.direction]
     else [StoreOp.updateOp bs.2.id sell_remaining])

/-- Whether a pool entry is older than the pool timeout
(`entered_at < now - POOL_TIMEOUT_HOURS`, timeout_handler.py line 36;
`POOL_TIMEOUT_HOURS` defaults to 24). -/
def timedOut (now : ℤ) (e : Entry) : Bool := e.entered_pool_at < now - 24

/-- `check_timeouts` (timeout_handler.py line 14): scans the buy pool then
the sell pool; every timed-out entry is removed from the store immediately
(`pool_manager.remove_from_pool`) and collected for the engine. Returns the
store removals it performs, in order, and the timed-out entries. -/
def checkTimeouts (buyStore sellStore : List Entry) (now : ℤ) :
    List StoreOp × List Entry :=
  let tb := buyStore.filter (timedOut now)
  let ts := sellStore.filter (timedOut now)
  (tb.map (fun e => StoreOp.removeOp e.id "ngn_to_cny") ++
     ts.map (fun e => StoreOp.removeOp e.id "cny_to_ngn"),
   tb ++ ts)

/-- The ordered pool-store mutations of one `_execute_cycle` run, each tagged
with its phase relative to the cycle's DB commit: the timeout sweep (step 7)
removes stale entries from the store inline, before the DB transaction of
step 8 opens; the `redis_ops` collected while persisting the matches are
executed at step 9, after the commit. -/
def cycleStoreTrace (buySnap sellSnap buyStore sellStore : List Entry)
    (now : ℤ) : List (Phase × StoreOp) :=
  let passes := runPipeline buySnap sellSnap
  let timeouts := checkTimeouts buyStore sellStore now
  let redis_ops :=
    ((passes.1.map persistStoreOps).flatten ++ (passes.2.1.map persistStoreOps).flatten ++
      (passes.2.2.map persistStoreOps).flatten)
  timeouts.1.map (fun op => (Phase.beforeCommit, op)) ++
    redis_ops.map (fun op => (Phase.afterCommit, op))

/-! ## Match records persisted for a multi match
(engine.py, `_persist_multi_match`, lines 261-334) -/

/-- A row of the `matches` table, the fields `_persist_multi_match` sets. -/
structure MatchRecord where
  cycle_id : String
  buy_transaction_id : String
  sell_transaction_id : String
  match_type : String
  matched_amount : ℚ
deriving DecidableEq, Repr

/-- The per-leg `Match` records `_persist_multi_match` inserts for one multi
match descriptor: one record per leg, `matched_amount` set to the leg's own
amount (line 292), buy/sell orientation from the target's direction. -/
def persistMultiRecords (cycle_id : String) : MatchDesc → List MatchRecord
  | .multiM target legs _ _ _ =>
    legs.map (fun leg =>
      let buy := if isBuySide target then target else leg
      let sell := if isBuySide target then leg else target
      { cycle_id := cycle_id,
        buy_transaction_id := buy.transaction_id,
        sell_transaction_id := sell.transaction_id,
        match_type := "multi",
        matched_amount := entryAmount leg })
  | _ => []

/-! ## Priority function (canonical three-factor form)

The callers (app/api/webhooks.py line 139) and the test suite
(tests/test_matching_engine.py) call
`calculate_priority(hours_in_pool=..., amount_usd=..., kyc_tier=...)` and
they import `TIER_SCORES`; the `priority.py` file shipped under src/ holds the
abandoned four-weight variant with a different signature, so the canonical
definition is not among the staged sources. -/

/-- Modelled from the spec: the canonical `TIER_SCORES` table of section 4.1
(`{1: 25, 2: 60, 3: 100}`, 0 if unknown); the staged `priority.py` holds the
abandoned variant, not this table which the tests import. -/
def TIER_SCORES (kyc_tier : ℕ) : ℚ :=
  if kyc_tier = 1 then 25
  else if kyc_tier = 2 then 60
  else if kyc_tier = 3 then 100
  else 0

/-- Modelled from the spec: the canonical `calculate_priority` of section
4.1 (`0.40*age_score + 0.35*amount_score + 0.25*tier_score` with
`age_score = min(hours_in_pool/24, 1)*100` and
`amount_score = min(amount_usd/100000, 1)*100`); the staged `priority.py`
holds the abandoned four-weight variant with another signature. -/
def calculate_priority (hours_in_pool amount_usd : ℚ) (kyc_tier : ℕ) : ℚ :=
  let age_score := min (hours_in_pool / 24) 1 * 100
  let amount_score := min (amount_usd / 100000) 1 * 100
  let tier_score := TIER_SCORES kyc_tier
  40/100 * age_score + 35/100 * amount_score + 25/100 * tier_score

/-! ## Payment-to-pool ingestion (app/api/webhooks.py, `_process_payment`) -/

/-- `AMOUNT_TOLERANCE_NGN = Decimal("100")` (webhooks.py line 32). -/
def AMOUNT_TOLERANCE_NGN : ℚ := 100

/-- `MIN_ACCEPT_RATIO = Decimal("0.95")` (webhooks.py line 34). -/
def MIN_ACCEPT_RATIO : ℚ := 95/100

/-- `POOL_EXPIRY_HOURS` (webhooks.py line 36; default of
`MATCHING_POOL_TIMEOUT_HOURS` is 24). -/
def POOL_EXPIRY_HOURS : ℤ := 24

/-- The in-flight payment classification (webhooks.py step 4). -/
inductive Classification where
  | exactC
  | overpayment
  | adjusted
  | held
deriving DecidableEq, Repr

/-- Quantization to 2 decimal places as Python's
`Decimal.quantize(Decimal("0.01"))` performs it (banker's rounding, the
default `ROUND_HALF_EVEN` of the decimal context). -/
def quantize2 (q : ℚ) : ℚ :=
  let x := q * 100
  let n := ⌊x⌋
  let f := x - n
  let r : ℤ :=
    if f < 1/2 then n
    else if 1/2 < f then n + 1
    else if n % 2 = 0 then n else n + 1
  (r : ℚ) / 100

/-- A `MatchingPool` DB row as `_process_payment` creates it
(webhooks.py lines 151-161). -/
structure PoolEntryRow where
  id : String
  transaction_id : String
  trader_id : String
  direction : TransactionDirection
  amount : ℚ
  currency : String
  priority_score : ℚ
  is_active : Bool
  entered_pool_at : ℤ
  expires_at : ℤ
deriving DecidableEq, Repr

/-- The `pool_manager.add_to_pool` call of `_process_payment`
(webhooks.py lines 166-181). -/
structure PoolAddOp where
  pool_entry_id : String
  transaction_id : String
  direction : TransactionDirection
  source_amount : ℚ
  score : ℚ
deriving DecidableEq, Repr

/-- The response value of `_process_payment`. -/
inductive PaymentResult where
  | duplicate (reference : String) (transaction_status : TransactionStatus)
  | held (reference : String) (expected_amount paid_amount shortfall : ℚ)
  | success (reference : String) (classification : Classification)
      (transaction_status : TransactionStatus) (pool_entry_id : String)
  | transitionError (msg : String)
deriving DecidableEq, Repr

/-- Everything `_process_payment` leaves behind: the response, the (possibly
updated) transaction, the `MatchingPool` row written, and the pool-store
add performed. -/
structure PaymentOutcome where
  result : PaymentResult
  txn : Transaction
  poolRow : Option PoolEntryRow
  poolAdd : Option PoolAddOp
deriving DecidableEq, Repr

/-- Steps 5-11 of `_process_payment` for an accepted classification:
transition INITIATED to FUNDED, compute the priority with
`hours_in_pool=0`, the transaction's source amount and the trader's KYC
tier, derive the pool currency from the direction, create the
`MatchingPool` row (`is_active=True`, `expires_at = now + 24h`), add the
entry to the pool store and return the success response. The fresh row id
(a UUID in the source) is the parameter `newEntryId`. -/
def fundAndPool (txn : Transaction) (cls : Classification) (kyc_tier : ℕ)
    (now : ℤ) (newEntryId : String) : PaymentOutcome :=
  match Transaction.transition_to txn TransactionStatus.funded now with
  | .error e => { result := .transitionError e, txn := txn, poolRow := none, poolAdd := none }
  | .ok txn2 =>
    let priority := calculate_priority 0 txn2.source_amount kyc_tier
    let currency := if txn2.direction = TransactionDirection.ngn_to_cny then "NGN" else "CNY"
    let expires_at := now + POOL_EXPIRY_HOURS
    let row : PoolEntryRow :=
      { id := newEntryId, transaction_id := txn2.id, trader_id := txn2.trader_id,
        direction := txn2.direction, amount := txn2.source_amount, currency := currency,
        priority_score := priority, is_active := true,
        entered_pool_at := now, expires_at := expires_at }
    let add : PoolAddOp :=
      { pool_entry_id := newEntryId, transaction_id := txn2.id,
        direction := txn2.direction, source_amount := txn2.source_amount,
        score := priority }
    { result := .success txn2.reference cls TransactionStatus.funded newEntryId,
      txn := txn2, poolRow := some row, poolAdd := some add }

/-- `_process_payment` from the duplicate guard on (webhooks.py lines
77-200): classify the paid amount against `expected = source_amount +
fee_amount` in the source's order (exact within 100 NGN, overpayment,
adjusted at ratio at least 0.95 with both amounts scaled and quantized,
otherwise held with no transition and no pool writes). -/
def processPayment (txn : Transaction) (kyc_tier : ℕ) (paid : ℚ) (now : ℤ)
    (newEntryId : String) : PaymentOutcome :=
  if ¬ txn.status = TransactionStatus.initiated then
    { result := .duplicate txn.reference txn.status, txn := txn,
      poolRow := none, poolAdd := none }
  else
    let expected := txn.source_amount + txn.fee_amount
    let diff := |paid - expected|
    let ratio := if 0 < expected then paid / expected else 0
    if diff ≤ AMOUNT_TOLERANCE_NGN then
      fundAndPool txn Classification.exactC kyc_tier now newEntryId
    else if expected < paid then
      fundAndPool txn Classification.overpayment kyc_tier now newEntryId
    else if MIN_ACCEPT_RATIO ≤ ratio then
      let adjusted_txn :=
        { txn with
          source_amount := quantize2 (txn.source_amount * (paid / expected)),
          fee_amount := quantize2 (txn.fee_amount * (paid / expected)) }
      fundAndPool adjusted_txn Classification.adjusted kyc_tier now newEntryId
    else
      { result := .held txn.reference expected paid (expected - paid),
        txn := txn, poolRow := none, poolAdd := none }

/-! ## Specification-side definitions

These follow the claims' words (first eligible entry, greedy accumulation of
eligible candidates) and are compared with the source-side loops above. -/

/-- Spec-side eligibility for an exact counterpart: unconsumed, positive
amount, within the tolerance `|a-b|/a*100 <= tol` of the buy amount. -/
def exactEligible (aAmt tol : ℚ) (consumed : List ℕ) (jb : ℕ × Entry) : Bool :=
  decide (¬ jb.1 ∈ consumed) && decide (0 < entryAmount jb.2) &&
    decide (|aAmt - entryAmount jb.2| / aAmt * 100 ≤ tol)

/-- Spec-side exact matching: each buy entry with positive amount in order is
paired with the first eligible sell entry, both marked consumed. -/
def exactSpecGo (poolB : List (ℕ × Entry)) : List Entry → List ℕ → List MatchDesc
  | [], _ => []
  | a :: rest, consumed =>
    if 0 < entryAmount a then
      match poolB.find? (exactEligible (entryAmount a) EXACT_TOLERANCE_PCT consumed) with
      | some jb =>
          MatchDesc.exactM a jb.2 (min (entryAmount a) (entryAmount jb.2)) ::
            exactSpecGo poolB rest (jb.1 :: consumed)
      | none => exactSpecGo poolB rest consumed
    else exactSpecGo poolB rest consumed

/-- Spec-side `run_exact_matching`. -/
def exactMatchingSpec (pool_a pool_b : List Entry) : List MatchDesc :=
  exactSpecGo (enumFrom 0 pool_b) pool_a []

/-- Spec-side eligibility for a partial counterpart: unconsumed, positive
amount, and the overlap `min(a,b)` is at least `PARTIAL_MIN_PCT`% of both
the larger and the smaller of the two amounts. -/
def partEligible (aAmt : ℚ) (consumed : List ℕ) (jb : ℕ × Entry) : Bool :=
  decide (¬ jb.1 ∈ consumed) && decide (0 < entryAmount jb.2) &&
    decide (PARTIAL_MIN_PCT / 100 * max aAmt (entryAmount jb.2) ≤
      min aAmt (entryAmount jb.2)) &&
    decide (PARTIAL_MIN_PCT / 100 * min aAmt (entryAmount jb.2) ≤
      min aAmt (entryAmount jb.2))

/-- Spec-side partial matching: each remaining buy with positive amount is
paired with the first eligible sell; the match carries `min(a,b)` and the
two remainders. -/
def partSpecGo (poolB : List (ℕ × Entry)) : List Entry → List ℕ → List MatchDesc
  | [], _ => []
  | a :: rest, consumed =>
    if 0 < entryAmount a then
      match poolB.find? (partEligible (entryAmount a) consumed) with
      | some jb =>
          MatchDesc.partM a jb.2 (min (entryAmount a) (entryAmount jb.2))
              (entryAmount a - min (entryAmount a) (entryAmount jb.2))
              (entryAmount jb.2 - min (entryAmount a) (entryAmount jb.2)) ::
            partSpecGo poolB rest (jb.1 :: consumed)
      | none => partSpecGo poolB rest consumed
    else partSpecGo poolB rest consumed

/-- Spec-side `run_partial_matching`. -/
def partMatchingSpec (pool_a pool_b : List Entry) : List MatchDesc :=
  partSpecGo (enumFrom 0 pool_b) pool_a []

/-- Spec-side eligibility of a multi-leg candidate: unconsumed, positive
amount, strictly smaller than the target amount. -/
def multiEligible (targetAmt : ℚ) (used : List ℕ) (jc : ℕ × Entry) : Bool :=
  decide (¬ jc.1 ∈ used) && decide (0 < entryAmount jc.2) &&
    decide (entryAmount jc.2 < targetAmt)

/-- Spec-side greedy accumulation over the already-filtered eligible list:
take candidates in order, stopping after an accept once `MULTI_MAX_LEGS`
legs are collected (the counter `n` is the number already taken) or the
running total `s` has reached the target. -/
def specTakeLegs (targetAmt : ℚ) : List (ℕ × Entry) → ℚ → ℕ → List (ℕ × Entry)
  | [], _, _ => []
  | c :: rest, s, n =>
    c :: (if MULTI_MAX_LEGS ≤ n + 1 ∨ targetAmt ≤ s + entryAmount c.2 then []
          else specTakeLegs targetAmt rest (s + entryAmount c.2) (n + 1))

/-- The assembled total of a list of indexed legs. -/
def legsSum (l : List (ℕ × Entry)) : ℚ := (l.map (fun p => entryAmount p.2)).sum

/-- The legs `_greedy_multi` assembles, described spec-side: the greedy
prefix of the eligible candidates. -/
def specLegs (target : Entry) (candidates : List Entry) (used : List ℕ) :
    List (ℕ × Entry) :=
  specTakeLegs (entryAmount target)
    ((enumFrom 0 candidates).filter (multiEligible (entryAmount target) used)) 0 0

/-- The entries one match descriptor consumes (the target and every leg for
a multi match, the two paired entries otherwise). -/
def consumedEntries : MatchDesc → List Entry
  | .exactM a b _ => [a, b]
  | .multiM t legs _ _ _ => t :: legs
  | .partM a b _ _ _ => [a, b]

/-- All pool-entry ids referenced by a pass's matches. -/
def allConsumedIds (ms : List MatchDesc) : List String :=
  (ms.map matchConsumedIds).flatten

/-- A concrete pool entry for boundary instances. -/
def mkEntry (id tid dir : String) (amt : ℚ) : Entry :=
  { id := id, transaction_id := tid, direction := dir, source_amount := amt,
    entered_pool_at := 0, score := 0 }

/-- A concrete transaction for boundary instances. -/
def mkTxn (st : TransactionStatus) (src fee : ℚ) : Transaction :=
  { id := "tx-1", trader_id := "tr-1", reference := "TXN-AAAAAAAA",
    direction := TransactionDirection.ngn_to_cny,
    source_amount := src, fee_amount := fee, status := st,
    funded_at := none, matched_at := none, settled_at := none }

/-! # Theorems -/

/-- Helper: the code's transition predicate agrees with the spec's table. -/
theorem valid_transition_iff_table :
    ∀ f t : TransactionStatus,
      Transaction.is_valid_transition f t = true ↔ (f, t) ∈ specTransitionTable := by
  decide

/-- C1: `Transaction.is_valid_transition` returns true exactly on the pairs
of the section 4.2 transition table; `transition_to` fails with the
invalid-transition error (leaving the transaction unchanged) on every pair
outside the table, and on success sets the status and auto-stamps
`funded_at` when the new status is FUNDED, `matched_at` when it is MATCHED
or PARTIAL_MATCHED, and `settled_at` when it is COMPLETED. -/
theorem C1_fsm_transition_table :
    (∀ f t : TransactionStatus,
      Transaction.is_valid_transition f t = true ↔ (f, t) ∈ specTransitionTable) ∧
    (∀ (txn : Transaction) (s : TransactionStatus) (now : ℤ),
      (¬ (txn.status, s) ∈ specTransitionTable →
        Transaction.transition_to txn s now = Except.error "Invalid transition") ∧
      ((txn.status, s) ∈ specTransitionTable →
        Transaction.transition_to txn s now = Except.ok
          { txn with
            status := s,
            funded_at := if s = TransactionStatus.funded then some now else txn.funded_at,
            matched_at :=
              (if s = TransactionStatus.matched ∨ s = TransactionStatus.partialMatched
                then some now else txn.matched_at),
            settled_at :=
              (if s = TransactionStatus.completed then some now else txn.settled_at) })) := by
  refine ⟨valid_transition_iff_table, ?_⟩
  intro txn s now
  constructor
  · intro h
    have hv : ¬ Transaction.is_valid_transition txn.status s = true := by
      intro hb
      exact h ((valid_transition_iff_table txn.status s).mp hb)
    simp [Transaction.transition_to, hv]
  · intro h
    have hv : Transaction.is_valid_transition txn.status s = true :=
      (valid_transition_iff_table txn.status s).mpr h
    cases s <;> simp [Transaction.transition_to, hv]

/-- C1 witness: at a concrete transaction, INITIATED to FUNDED succeeds and
stamps `funded_at`, while COMPLETED to FUNDED (outside the table) fails. -/
theorem C1_fsm_transition_table_witness :
    Transaction.transition_to (mkTxn TransactionStatus.initiated 1000 20)
        TransactionStatus.funded 5 =
      Except.ok { (mkTxn TransactionStatus.initiated 1000 20) with
        status := TransactionStatus.funded
        funded_at := some 5 } ∧
    Transaction.transition_to (mkTxn TransactionStatus.completed 1000 20)
        TransactionStatus.funded 5 =
      Except.error "Invalid transition" := by
  constructor
  · have h := (C1_fsm_transition_table.2 (mkTxn TransactionStatus.initiated 1000 20)
      TransactionStatus.funded 5).2 (by decide)
    simpa using h
  · exact (C1_fsm_transition_table.2 (mkTxn TransactionStatus.completed 1000 20)
      TransactionStatus.funded 5).1 (by decide)

/-- Helper: the tier score is between 0 and 100. -/
theorem tier_score_bounds (t : ℕ) : 0 ≤ TIER_SCORES t ∧ TIER_SCORES t ≤ 100 := by
  unfold TIER_SCORES
  split <;> norm_num
  split <;> norm_num
  split <;> norm_num

/-- C8: the priority function computes
`0.40*(min(h/24,1)*100) + 0.35*(min(a/100000,1)*100) + 0.25*tier_score`,
with tier scores 25, 60, 100 for tiers 1, 2, 3 and 0 for an unknown tier;
the age and amount inputs are clamped (24 hours and 100000 USD caps), and
for nonnegative inputs the result lies in [0, 100]. -/
theorem C8_priority_formula :
    (∀ (h a : ℚ) (t : ℕ),
      calculate_priority h a t =
        40/100 * (min (h/24) 1 * 100) + 35/100 * (min (a/100000) 1 * 100) +
          25/100 * TIER_SCORES t) ∧
    (TIER_SCORES 1 = 25 ∧ TIER_SCORES 2 = 60 ∧ TIER_SCORES 3 = 100) ∧
    (∀ t : ℕ, ¬ t = 1 → ¬ t = 2 → ¬ t = 3 → TIER_SCORES t = 0) ∧
    (∀ (h a : ℚ) (t : ℕ), 24 ≤ h →
      calculate_priority h a t = calculate_priority 24 a t) ∧
    (∀ (h a : ℚ) (t : ℕ), 100000 ≤ a →
      calculate_priority h a t = calculate_priority h 100000 t) ∧
    (∀ (h a : ℚ) (t : ℕ), 0 ≤ h → 0 ≤ a →
      0 ≤ calculate_priority h a t ∧ calculate_priority h a t ≤ 100) := by
  refine ⟨fun h a t => rfl, by norm_num [TIER_SCORES], ?_, ?_, ?_, ?_⟩
  · intro t h1 h2 h3
    simp [TIER_SCORES, h1, h2, h3]
  · intro h a t hh
    have h24 : min (h/24) 1 = (1:ℚ) := by
      have : (1:ℚ) ≤ h/24 := by
        rw [le_div_iff₀ (by norm_num : (0:ℚ) < 24)]
        linarith
      simp [min_eq_right this]
    have h24b : min ((24:ℚ)/24) 1 = (1:ℚ) := by norm_num
    simp only [calculate_priority, h24, h24b]
  · intro h a t ha
    have hA : min (a/100000) 1 = (1:ℚ) := by
      have : (1:ℚ) ≤ a/100000 := by
        rw [le_div_iff₀ (by norm_num : (0:ℚ) < 100000)]
        linarith
      simp [min_eq_right this]
    have hAb : min ((100000:ℚ)/100000) 1 = (1:ℚ) := by norm_num
    simp only [calculate_priority, hA, hAb]
  · intro h a t hh ha
    obtain ⟨ht0, ht100⟩ := tier_score_bounds t
    have hage0 : (0:ℚ) ≤ min (h/24) 1 :=
      le_min (div_nonneg hh (by norm_num)) (by norm_num)
    have hage1 : min (h/24) 1 ≤ (1:ℚ) := min_le_right _ _
    have hamt0 : (0:ℚ) ≤ min (a/100000) 1 :=
      le_min (div_nonneg ha (by norm_num)) (by norm_num)
    have hamt1 : min (a/100000) 1 ≤ (1:ℚ) := min_le_right _ _
    unfold calculate_priority
    constructor <;> nlinarith

/-- C8 witness: the bounds applied at hours 0, amount 50000 USD, tier 2. -/
theorem C8_priority_formula_witness :
    0 ≤ calculate_priority 0 50000 2 ∧ calculate_priority 0 50000 2 ≤ 100 :=
  C8_priority_formula.2.2.2.2.2 0 50000 2 (by norm_num) (by norm_num)

/-- Helper: INITIATED to FUNDED is a valid transition and stamps `funded_at`. -/
theorem transition_initiated_funded (txn : Transaction) (now : ℤ)
    (h : txn.status = TransactionStatus.initiated) :
    Transaction.transition_to txn TransactionStatus.funded now =
      Except.ok { txn with
        status := TransactionStatus.funded
        funded_at := some now } := by
  have hv : Transaction.is_valid_transition txn.status TransactionStatus.funded = true := by
    rw [h]; decide
  simp [Transaction.transition_to, hv]

/-- Helper: the full outcome of `fundAndPool` on an INITIATED transaction. -/
theorem fundAndPool_eq (txn : Transaction) (cls : Classification) (tier : ℕ)
    (now : ℤ) (eid : String) (h : txn.status = TransactionStatus.initiated) :
    fundAndPool txn cls tier now eid =
      { result := PaymentResult.success txn.reference cls TransactionStatus.funded eid
        txn := { txn with
          status := TransactionStatus.funded
          funded_at := some now }
        poolRow := some
          { id := eid
            transaction_id := txn.id
            trader_id := txn.trader_id
            direction := txn.direction
            amount := txn.source_amount
            currency :=
              if txn.direction = TransactionDirection.ngn_to_cny then "NGN" else "CNY"
            priority_score := calculate_priority 0 txn.source_amount tier
            is_active := true
            entered_pool_at := now
            expires_at := now + 24 }
        poolAdd := some
          { pool_entry_id := eid
            transaction_id := txn.id
            direction := txn.direction
            source_amount := txn.source_amount
            score := calculate_priority 0 txn.source_amount tier } } := by
  rw [fundAndPool, transition_initiated_funded txn now h]
  rfl

/-- Helper: the adjusted branch of `_process_payment`: both amounts are
scaled by paid/expected and quantized before funding. -/
theorem processPayment_adjusted_branch (txn : Transaction) (tier : ℕ) (paid : ℚ)
    (now : ℤ) (eid : String) (hst : txn.status = TransactionStatus.initiated)
    (hpos : 0 < txn.source_amount + txn.fee_amount)
    (h1 : ¬ |paid - (txn.source_amount + txn.fee_amount)| ≤ 100)
    (h2 : ¬ txn.source_amount + txn.fee_amount < paid)
    (h3 : 95/100 ≤ paid / (txn.source_amount + txn.fee_amount)) :
    processPayment txn tier paid now eid =
      fundAndPool { txn with
          source_amount :=
            quantize2 (txn.source_amount * (paid / (txn.source_amount + txn.fee_amount)))
          fee_amount :=
            quantize2 (txn.fee_amount * (paid / (txn.source_amount + txn.fee_amount))) }
        Classification.adjusted tier now eid := by
  have hns : ¬ ¬ txn.status = TransactionStatus.initiated := by simp [hst]
  have h3r : MIN_ACCEPT_RATIO ≤
      (if 0 < txn.source_amount + txn.fee_amount
        then paid / (txn.source_amount + txn.fee_amount) else 0) := by
    rw [if_pos hpos]; exact h3
  rw [processPayment]
  simp only [AMOUNT_TOLERANCE_NGN, if_neg hns, if_neg h1, if_neg h2, if_pos h3r]

/-- C6: on an INITIATED transaction with positive expected amount, the
ingestion path classifies the payment as a function of (paid, expected) in
the source's order: within 100 NGN exact (amounts unchanged); above
expected overpayment (amounts unchanged); ratio at least 0.95 adjusted with
both amounts scaled by paid/expected and quantized to 2 decimal places;
otherwise held with no status transition and no writes. At expected
1020000 and paid 989400 the payment is adjusted and the amounts become
970000 and 19400. -/
theorem C6_payment_classification :
    (∀ (txn : Transaction) (tier : ℕ) (paid : ℚ) (now : ℤ) (eid : String),
      txn.status = TransactionStatus.initiated →
      0 < txn.source_amount + txn.fee_amount →
      ((|paid - (txn.source_amount + txn.fee_amount)| ≤ 100 →
        (processPayment txn tier paid now eid).result =
          PaymentResult.success txn.reference Classification.exactC
            TransactionStatus.funded eid ∧
        (processPayment txn tier paid now eid).txn.source_amount = txn.source_amount ∧
        (processPayment txn tier paid now eid).txn.fee_amount = txn.fee_amount) ∧
      (¬ |paid - (txn.source_amount + txn.fee_amount)| ≤ 100 →
        txn.source_amount + txn.fee_amount < paid →
        (processPayment txn tier paid now eid).result =
          PaymentResult.success txn.reference Classification.overpayment
            TransactionStatus.funded eid ∧
        (processPayment txn tier paid now eid).txn.source_amount = txn.source_amount ∧
        (processPayment txn tier paid now eid).txn.fee_amount = txn.fee_amount) ∧
      (¬ |paid - (txn.source_amount + txn.fee_amount)| ≤ 100 →
        ¬ txn.source_amount + txn.fee_amount < paid →
        95/100 ≤ paid / (txn.source_amount + txn.fee_amount) →
        (processPayment txn tier paid now eid).result =
          PaymentResult.success txn.reference Classification.adjusted
            TransactionStatus.funded eid ∧
        (processPayment txn tier paid now eid).txn.source_amount =
          quantize2 (txn.source_amount * (paid / (txn.source_amount + txn.fee_amount))) ∧
        (processPayment txn tier paid now eid).txn.fee_amount =
          quantize2 (txn.fee_amount * (paid / (txn.source_amount + txn.fee_amount)))) ∧
      (¬ |paid - (txn.source_amount + txn.fee_amount)| ≤ 100 →
        ¬ txn.source_amount + txn.fee_amount < paid →
        paid / (txn.source_amount + txn.fee_amount) < 95/100 →
        processPayment txn tier paid now eid =
          { result := PaymentResult.held txn.reference
              (txn.source_amount + txn.fee_amount) paid
              (txn.source_amount + txn.fee_amount - paid)
            txn := txn
            poolRow := none
            poolAdd := none }))) ∧
    ((processPayment (mkTxn TransactionStatus.initiated 1000000 20000) 2 989400 0
        "pe-1").result =
      PaymentResult.success "TXN-AAAAAAAA" Classification.adjusted
        TransactionStatus.funded "pe-1" ∧
     (processPayment (mkTxn TransactionStatus.initiated 1000000 20000) 2 989400 0
        "pe-1").txn.source_amount = 970000 ∧
     (processPayment (mkTxn TransactionStatus.initiated 1000000 20000) 2 989400 0
        "pe-1").txn.fee_amount = 19400) := by
  constructor
  · intro txn tier paid now eid hst hpos
    have hns : ¬ ¬ txn.status = TransactionStatus.initiated := by simp [hst]
    refine ⟨?_, ?_, ?_, ?_⟩
    · intro h1
      rw [processPayment]
      simp only [AMOUNT_TOLERANCE_NGN, if_neg hns, if_pos h1]
      rw [fundAndPool_eq txn _ tier now eid hst]
      exact ⟨rfl, rfl, rfl⟩
    · intro h1 h2
      rw [processPayment]
      simp only [AMOUNT_TOLERANCE_NGN, if_neg hns, if_neg h1, if_pos h2]
      rw [fundAndPool_eq txn _ tier now eid hst]
      exact ⟨rfl, rfl, rfl⟩
    · intro h1 h2 h3
      rw [processPayment_adjusted_branch txn tier paid now eid hst hpos h1 h2 h3]
      rw [fundAndPool_eq _ _ tier now eid (by simpa using hst)]
      exact ⟨rfl, rfl, rfl⟩
    · intro h1 h2 h3
      have h3r : ¬ MIN_ACCEPT_RATIO ≤
          (if 0 < txn.source_amount + txn.fee_amount
            then paid / (txn.source_amount + txn.fee_amount) else 0) := by
        rw [if_pos hpos]; exact not_le.mpr h3
      rw [processPayment]
      simp only [AMOUNT_TOLERANCE_NGN, if_neg hns, if_neg h1, if_neg h2, if_neg h3r]
  · have heq := processPayment_adjusted_branch
      (mkTxn TransactionStatus.initiated 1000000 20000) 2 989400 0 "pe-1" rfl
      (by norm_num [mkTxn]) (by norm_num [mkTxn]) (by norm_num [mkTxn])
      (by norm_num [mkTxn])
    rw [heq, fundAndPool_eq _ _ 2 0 "pe-1" rfl]
    refine ⟨rfl, ?_, ?_⟩
    · show quantize2 ((mkTxn TransactionStatus.initiated 1000000 20000).source_amount *
        (989400 / ((mkTxn TransactionStatus.initiated 1000000 20000).source_amount +
          (mkTxn TransactionStatus.initiated 1000000 20000).fee_amount))) = 970000
      have hv : (mkTxn TransactionStatus.initiated 1000000 20000).source_amount *
          ((989400:ℚ) / ((mkTxn TransactionStatus.initiated 1000000 20000).source_amount +
            (mkTxn TransactionStatus.initiated 1000000 20000).fee_amount)) = 970000 := by
        norm_num [mkTxn]
      rw [hv]
      simp only [quantize2]
      norm_num
    · show quantize2 ((mkTxn TransactionStatus.initiated 1000000 20000).fee_amount *
        (989400 / ((mkTxn TransactionStatus.initiated 1000000 20000).source_amount +
          (mkTxn TransactionStatus.initiated 1000000 20000).fee_amount))) = 19400
      have hv : (mkTxn TransactionStatus.initiated 1000000 20000).fee_amount *
          ((989400:ℚ) / ((mkTxn TransactionStatus.initiated 1000000 20000).source_amount +
            (mkTxn TransactionStatus.initiated 1000000 20000).fee_amount)) = 19400 := by
        norm_num [mkTxn]
      rw [hv]
      simp only [quantize2]
      norm_num

/-- C6 witness: the universal part applied at the concrete under-payment
989400 against expected 1020000 (97 percent, the adjusted branch). -/
theorem C6_payment_classification_witness :
    (processPayment (mkTxn TransactionStatus.initiated 1000000 20000) 2 989400 0
        "pe-1").result =
      PaymentResult.success "TXN-AAAAAAAA" Classification.adjusted
        TransactionStatus.funded "pe-1" ∧
    (processPayment (mkTxn TransactionStatus.initiated 1000000 20000) 2 989400 0
        "pe-1").txn.source_amount =
      quantize2 (1000000 * ((989400:ℚ) / (1000000 + 20000))) := by
  have h := (C6_payment_classification.1 (mkTxn TransactionStatus.initiated 1000000 20000)
    2 989400 0 "pe-1" (by decide) (by norm_num [mkTxn])).2.2.1
    (by norm_num [mkTxn]) (by norm_num [mkTxn]) (by norm_num [mkTxn])
  exact ⟨h.1, h.2.1⟩

/-- C7: every accepted payment (exact, overpayment, adjusted) on an
INITIATED transaction funds the transaction (status FUNDED, `funded_at`
stamped), computes the priority with `hours_in_pool = 0`, the (possibly
adjusted) amount and the trader's KYC tier, writes a pool row with
`is_active = true` and `expires_at = now + 24`, adds the entry to the pool
store with the priority as score, and returns the success response naming
the classification, the funded status and the new pool-entry id. -/
theorem C7_funded_pool_insertion :
    ∀ (txn : Transaction) (tier : ℕ) (paid : ℚ) (now : ℤ) (eid : String),
      txn.status = TransactionStatus.initiated →
      0 < txn.source_amount + txn.fee_amount →
      (|paid - (txn.source_amount + txn.fee_amount)| ≤ 100 ∨
        txn.source_amount + txn.fee_amount < paid ∨
        95/100 ≤ paid / (txn.source_amount + txn.fee_amount)) →
      (processPayment txn tier paid now eid).txn.status = TransactionStatus.funded ∧
      (processPayment txn tier paid now eid).txn.funded_at = some now ∧
      (processPayment txn tier paid now eid).poolRow = some
        { id := eid
          transaction_id := txn.id
          trader_id := txn.trader_id
          direction := txn.direction
          amount := (processPayment txn tier paid now eid).txn.source_amount
          currency :=
            if txn.direction = TransactionDirection.ngn_to_cny then "NGN" else "CNY"
          priority_score :=
            calculate_priority 0 ((processPayment txn tier paid now eid).txn.source_amount)
              tier
          is_active := true
          entered_pool_at := now
          expires_at := now + 24 } ∧
      (processPayment txn tier paid now eid).poolAdd = some
        { pool_entry_id := eid
          transaction_id := txn.id
          direction := txn.direction
          source_amount := (processPayment txn tier paid now eid).txn.source_amount
          score :=
            calculate_priority 0 ((processPayment txn tier paid now eid).txn.source_amount)
              tier } ∧
      ∃ c, (processPayment txn tier paid now eid).result =
        PaymentResult.success txn.reference c TransactionStatus.funded eid := by
  intro txn tier paid now eid hst hpos hacc
  have hns : ¬ ¬ txn.status = TransactionStatus.initiated := by simp [hst]
  by_cases h1 : |paid - (txn.source_amount + txn.fee_amount)| ≤ (100:ℚ)
  · rw [processPayment]
    simp only [AMOUNT_TOLERANCE_NGN, if_neg hns, if_pos h1]
    rw [fundAndPool_eq txn _ tier now eid hst]
    exact ⟨rfl, rfl, rfl, rfl, Classification.exactC, rfl⟩
  · by_cases h2 : txn.source_amount + txn.fee_amount < paid
    · rw [processPayment]
      simp only [AMOUNT_TOLERANCE_NGN, if_neg hns, if_neg h1, if_pos h2]
      rw [fundAndPool_eq txn _ tier now eid hst]
      exact ⟨rfl, rfl, rfl, rfl, Classification.overpayment, rfl⟩
    · have h3 : 95/100 ≤ paid / (txn.source_amount + txn.fee_amount) := by
        rcases hacc with h | h | h
        · exact absurd h h1
        · exact absurd h h2
        · exact h
      have h3r : MIN_ACCEPT_RATIO ≤
          (if 0 < txn.source_amount + txn.fee_amount
            then paid / (txn.source_amount + txn.fee_amount) else 0) := by
        rw [if_pos hpos]; exact h3
      rw [processPayment]
      simp only [AMOUNT_TOLERANCE_NGN, if_neg hns, if_neg h1, if_neg h2, if_pos h3r]
      rw [fundAndPool_eq _ _ tier now eid (by simpa using hst)]
      exact ⟨rfl, rfl, rfl, rfl, Classification.adjusted, rfl⟩

/-- C7 witness: the accepted-payment conclusion at a concrete exact payment
(paid equals expected). -/
theorem C7_funded_pool_insertion_witness :
    (processPayment (mkTxn TransactionStatus.initiated 1000000 20000) 2 1020000 0
        "pe-2").txn.status = TransactionStatus.funded ∧
    (processPayment (mkTxn TransactionStatus.initiated 1000000 20000) 2 1020000 0
        "pe-2").txn.funded_at = some 0 ∧
    ∃ c, (processPayment (mkTxn TransactionStatus.initiated 1000000 20000) 2 1020000 0
        "pe-2").result =
      PaymentResult.success "TXN-AAAAAAAA" c TransactionStatus.funded "pe-2" := by
  have h := C7_funded_pool_insertion (mkTxn TransactionStatus.initiated 1000000 20000)
    2 1020000 0 "pe-2" (by decide) (by norm_num [mkTxn])
    (Or.inl (by norm_num [mkTxn]))
  exact ⟨h.1, h.2.1, h.2.2.2.2⟩

/-- Helper: the inner exact scan returns the first eligible sell entry. -/
theorem exactScan_eq_find (aAmt tol : ℚ) (usedB : List ℕ) (l : List (ℕ × Entry)) :
    exactScan aAmt tol usedB l = l.find? (exactEligible aAmt tol usedB) := by
  induction l with
  | nil => rfl
  | cons jb rest ih =>
    obtain ⟨j, b⟩ := jb
    by_cases h1 : j ∈ usedB
    · have he : ¬ exactEligible aAmt tol usedB (j, b) = true := by
        simp [exactEligible, h1]
      rw [List.find?_cons_of_neg _ he]
      simpa [exactScan, h1] using ih
    · by_cases h2 : entryAmount b ≤ 0
      · have he : ¬ exactEligible aAmt tol usedB (j, b) = true := by
          simp [exactEligible, h1, h2, not_lt.mpr h2]
        rw [List.find?_cons_of_neg _ he]
        simpa [exactScan, h1, h2] using ih
      · by_cases h3 : |aAmt - entryAmount b| / aAmt * 100 ≤ tol
        · have he : exactEligible aAmt tol usedB (j, b) = true := by
            simp [exactEligible, h1, h3, lt_of_not_le h2]
          rw [List.find?_cons_of_pos _ he]
          simp [exactScan, h1, h2, h3]
        · have he : ¬ exactEligible aAmt tol usedB (j, b) = true := by
            simp [exactEligible, h1, h3]
          rw [List.find?_cons_of_neg _ he]
          simpa [exactScan, h1, h2, h3] using ih

/-- Helper: the outer exact loop equals the spec-side loop; the `used_a` set
only ever holds indices below the enumeration counter, so its check never
fires. -/
theorem exactGo_eq_spec (poolB : List (ℕ × Entry)) (l : List Entry) :
    ∀ (n : ℕ) (usedA usedB : List ℕ), (∀ k ∈ usedA, k < n) →
      exactGo poolB EXACT_TOLERANCE_PCT (enumFrom n l) usedA usedB =
        exactSpecGo poolB l usedB := by
  induction l with
  | nil => intro n uA uB _; rfl
  | cons a rest ih =>
    intro n uA uB hA
    have hn : ¬ n ∈ uA := fun hmem => lt_irrefl n (hA n hmem)
    have hstep : ∀ k ∈ n :: uA, k < n + 1 := by
      intro k hk
      rcases List.mem_cons.mp hk with h | h
      · omega
      · exact Nat.lt_succ_of_lt (hA k h)
    have hAstep : ∀ k ∈ uA, k < n + 1 := fun k hk => Nat.lt_succ_of_lt (hA k hk)
    by_cases hpos : entryAmount a ≤ 0
    · have hnpos : ¬ 0 < entryAmount a := not_lt.mpr hpos
      simp only [enumFrom, exactGo, if_neg hn, if_pos hpos, exactSpecGo, if_neg hnpos]
      exact ih (n + 1) uA uB hAstep
    · have hpos2 : 0 < entryAmount a := lt_of_not_le hpos
      simp only [enumFrom, exactGo, if_neg hn, if_neg hpos, exactSpecGo, if_pos hpos2,
        exactScan_eq_find]
      cases hf : poolB.find? (exactEligible (entryAmount a) EXACT_TOLERANCE_PCT uB) with
      | none => exact ih (n + 1) uA uB hAstep
      | some jb =>
        obtain ⟨j, b⟩ := jb
        exact congrArg _ (ih (n + 1) (n :: uA) (j :: uB) hstep)

/-- C2: `run_exact_matching` pairs each buy entry with positive amount, in
order, with the first unconsumed sell entry with positive amount within the
0.5 percent tolerance `|a-b|/a*100 <= 0.5`, marking both consumed and
emitting the exact descriptor with `matched_amount = min(a,b)`; entries
with non-positive amounts are skipped (the spec-side function is built from
these words). A relative difference of exactly 0.5 percent matches, 0.6
percent does not. The embedding is pure, mirroring that the source never
mutates the input lists. -/
theorem C2_exact_matching_spec :
    (∀ pool_a pool_b : List Entry,
      run_exact_matching pool_a pool_b = exactMatchingSpec pool_a pool_b) ∧
    run_exact_matching [mkEntry "a1" "t1" "ngn_to_cny" 1000]
        [mkEntry "b1" "t2" "cny_to_ngn" 995] =
      [MatchDesc.exactM (mkEntry "a1" "t1" "ngn_to_cny" 1000)
        (mkEntry "b1" "t2" "cny_to_ngn" 995) 995] ∧
    run_exact_matching [mkEntry "a1" "t1" "ngn_to_cny" 1000]
        [mkEntry "b1" "t2" "cny_to_ngn" 994] = [] := by
  refine ⟨fun A B => exactGo_eq_spec (enumFrom 0 B) A 0 [] [] (by simp), ?_, ?_⟩
  · show exactGo (enumFrom 0 [mkEntry "b1" "t2" "cny_to_ngn" 995]) EXACT_TOLERANCE_PCT
      (enumFrom 0 [mkEntry "a1" "t1" "ngn_to_cny" 1000]) [] [] = _
    norm_num [enumFrom, exactGo, exactScan, entryAmount, mkEntry, EXACT_TOLERANCE_PCT,
      abs_of_nonneg]
  · show exactGo (enumFrom 0 [mkEntry "b1" "t2" "cny_to_ngn" 994]) EXACT_TOLERANCE_PCT
      (enumFrom 0 [mkEntry "a1" "t1" "ngn_to_cny" 1000]) [] [] = _
    norm_num [enumFrom, exactGo, exactScan, entryAmount, mkEntry, EXACT_TOLERANCE_PCT,
      abs_of_nonneg]

/-- Helper: for a positive buy amount, the inner partial scan returns the
first sell entry whose overlap clears 10 percent of both sides; the code's
smaller-side test never fires because the overlap equals the smaller side. -/
theorem partScan_eq_find (aAmt : ℚ) (ha : 0 < aAmt) (usedB : List ℕ)
    (l : List (ℕ × Entry)) :
    partScan aAmt usedB l = l.find? (partEligible aAmt usedB) := by
  induction l with
  | nil => rfl
  | cons jb rest ih =>
    obtain ⟨j, b⟩ := jb
    by_cases h1 : j ∈ usedB
    · have he : ¬ partEligible aAmt usedB (j, b) = true := by
        simp [partEligible, h1]
      rw [List.find?_cons_of_neg _ he]
      simpa [partScan, h1] using ih
    · by_cases h2 : entryAmount b ≤ 0
      · have he : ¬ partEligible aAmt usedB (j, b) = true := by
          simp [partEligible, h1, not_lt.mpr h2]
        rw [List.find?_cons_of_neg _ he]
        simpa [partScan, h1, h2] using ih
      · have hb : 0 < entryAmount b := lt_of_not_le h2
        have hm : 0 < min aAmt (entryAmount b) := lt_min ha hb
        have hL : 0 < max aAmt (entryAmount b) := lt_of_lt_of_le ha (le_max_left _ _)
        have hsm : ¬ (0 < min aAmt (entryAmount b) ∧
            min aAmt (entryAmount b) / min aAmt (entryAmount b) * 100 < PARTIAL_MIN_PCT) := by
          rw [div_self (ne_of_gt hm)]
          norm_num [PARTIAL_MIN_PCT]
        have hc4 : PARTIAL_MIN_PCT / 100 * min aAmt (entryAmount b) ≤
            min aAmt (entryAmount b) := by
          rw [PARTIAL_MIN_PCT]; nlinarith
        by_cases h3 : min aAmt (entryAmount b) / max aAmt (entryAmount b) * 100 <
            PARTIAL_MIN_PCT
        · have hc3 : ¬ PARTIAL_MIN_PCT / 100 * max aAmt (entryAmount b) ≤
              min aAmt (entryAmount b) := by
            rw [PARTIAL_MIN_PCT] at h3 ⊢
            rw [div_mul_eq_mul_div, div_lt_iff₀ hL] at h3
            intro hcon
            nlinarith
          have he : ¬ partEligible aAmt usedB (j, b) = true := by
            simp [partEligible, hc3]
          rw [List.find?_cons_of_neg _ he]
          simp only [partScan]
          rw [if_neg h1, if_neg h2, if_neg hsm, if_pos ⟨hL, h3⟩]
          exact ih
        · have hc3 : PARTIAL_MIN_PCT / 100 * max aAmt (entryAmount b) ≤
              min aAmt (entryAmount b) := by
            rw [PARTIAL_MIN_PCT] at h3 ⊢
            rw [div_mul_eq_mul_div, not_lt, le_div_iff₀ hL] at h3
            nlinarith
          have he : partEligible aAmt usedB (j, b) = true := by
            simp [partEligible, h1, hb, hc3, hc4]
          rw [List.find?_cons_of_pos _ he]
          have hLc : ¬ (0 < max aAmt (entryAmount b) ∧
              min aAmt (entryAmount b) / max aAmt (entryAmount b) * 100 <
                PARTIAL_MIN_PCT) := by
            rw [not_and]
            intro
            exact h3
          simp only [partScan]
          rw [if_neg h1, if_neg h2, if_neg hsm, if_neg hLc]

/-- Helper: the outer partial loop equals the spec-side loop. -/
theorem partGo_eq_spec (poolB : List (ℕ × Entry)) (l : List Entry) :
    ∀ (n : ℕ) (usedA usedB : List ℕ), (∀ k ∈ usedA, k < n) →
      partGo poolB (enumFrom n l) usedA usedB = partSpecGo poolB l usedB := by
  induction l with
  | nil => intro n uA uB _; rfl
  | cons a rest ih =>
    intro n uA uB hA
    have hn : ¬ n ∈ uA := fun hmem => lt_irrefl n (hA n hmem)
    have hAstep : ∀ k ∈ uA, k < n + 1 := fun k hk => Nat.lt_succ_of_lt (hA k hk)
    have hstep : ∀ k ∈ n :: uA, k < n + 1 := by
      intro k hk
      rcases List.mem_cons.mp hk with h | h
      · omega
      · exact Nat.lt_succ_of_lt (hA k h)
    by_cases hpos : entryAmount a ≤ 0
    · have hnpos : ¬ 0 < entryAmount a := not_lt.mpr hpos
      simp only [enumFrom, partGo, if_neg hn, if_pos hpos, partSpecGo, if_neg hnpos]
      exact ih (n + 1) uA uB hAstep
    · have hpos2 : 0 < entryAmount a := lt_of_not_le hpos
      simp only [enumFrom, partGo, if_neg hn, if_neg hpos, partSpecGo, if_pos hpos2,
        partScan_eq_find (entryAmount a) hpos2]
      cases hf : poolB.find? (partEligible (entryAmount a) uB) with
      | none => exact ih (n + 1) uA uB hAstep
      | some jb =>
        obtain ⟨j, b⟩ := jb
        exact congrArg _ (ih (n + 1) (n :: uA) (j :: uB) hstep)

/-- C4: `run_partial_matching` pairs each unconsumed buy entry with positive
amount against the first unconsumed sell entry with positive amount whose
overlap `min(a,b)` is at least 10 percent of both the larger and the
smaller side, emitting the partial descriptor with `matched_amount =
min(a,b)` and remainders `a - min(a,b)` and `b - min(a,b)` (the spec-side
function is built from these words). An overlap of exactly 10 percent of
each side is accepted, 9 percent is rejected. -/
theorem C4_partial_matching_spec :
    (∀ pool_a pool_b : List Entry,
      runPartialMatching pool_a pool_b = partMatchingSpec pool_a pool_b) ∧
    runPartialMatching [mkEntry "a1" "t1" "ngn_to_cny" 100]
        [mkEntry "b1" "t2" "cny_to_ngn" 10] =
      [MatchDesc.partM (mkEntry "a1" "t1" "ngn_to_cny" 100)
        (mkEntry "b1" "t2" "cny_to_ngn" 10) 10 90 0] ∧
    runPartialMatching [mkEntry "a1" "t1" "ngn_to_cny" 100]
        [mkEntry "b1" "t2" "cny_to_ngn" 9] = [] := by
  refine ⟨fun A B => partGo_eq_spec (enumFrom 0 B) A 0 [] [] (by simp), ?_, ?_⟩
  · show partGo (enumFrom 0 [mkEntry "b1" "t2" "cny_to_ngn" 10])
      (enumFrom 0 [mkEntry "a1" "t1" "ngn_to_cny" 100]) [] [] = _
    norm_num [enumFrom, partGo, partScan, entryAmount, mkEntry, PARTIAL_MIN_PCT,
      min_def, max_def]
  · show partGo (enumFrom 0 [mkEntry "b1" "t2" "cny_to_ngn" 9])
      (enumFrom 0 [mkEntry "a1" "t1" "ngn_to_cny" 100]) [] [] = _
    norm_num [enumFrom, partGo, partScan, entryAmount, mkEntry, PARTIAL_MIN_PCT,
      min_def, max_def]

/-- C9 counterexample: with a stale entry in the buy store (entered at hour
0, cycle at hour 25, timeout 24h), the cycle performs a pool-store removal
BEFORE the DB commit: the timeout sweep of `check_timeouts` removes the
entry inline at step 7 of `_execute_cycle`, before the DB transaction of
step 8 opens. This refutes the claim that every pool-store removal or
amount update of a cycle happens only after the commit. -/
theorem C9_counterexample :
    (Phase.beforeCommit, StoreOp.removeOp "pe-old" "ngn_to_cny") ∈
      cycleStoreTrace [] [] [mkEntry "pe-old" "t9" "ngn_to_cny" 100] [] 25 := by
  decide

/-- C9 (amended): every pool-store mutation the cycle performs before the
DB commit is the timeout sweep's removal of a timed-out store entry;
every match-derived removal or update runs after the commit, so when no
store entry has timed out, every store operation of the cycle runs after
the commit (and a failed commit leaves the store untouched). -/
theorem C9_store_ops_after_commit :
    (∀ (buySnap sellSnap buyStore sellStore : List Entry) (now : ℤ) (op : StoreOp),
      (Phase.beforeCommit, op) ∈
          cycleStoreTrace buySnap sellSnap buyStore sellStore now →
      ∃ e, (e ∈ buyStore ∧ timedOut now e = true ∧
              op = StoreOp.removeOp e.id "ngn_to_cny") ∨
           (e ∈ sellStore ∧ timedOut now e = true ∧
              op = StoreOp.removeOp e.id "cny_to_ngn")) ∧
    (∀ (buySnap sellSnap buyStore sellStore : List Entry) (now : ℤ),
      (∀ e ∈ buyStore ++ sellStore, ¬ timedOut now e = true) →
      ∀ p ∈ cycleStoreTrace buySnap sellSnap buyStore sellStore now,
        p.1 = Phase.afterCommit) := by
  constructor
  · intro bs ss bSt sSt now op hmem
    simp only [cycleStoreTrace, List.mem_append, List.mem_map] at hmem
    rcases hmem with ⟨op2, hop2, heq⟩ | ⟨op2, hop2, heq⟩
    · have hops : op2 = op := by
        have := congrArg Prod.snd heq
        simpa using this
      subst hops
      simp only [checkTimeouts, List.mem_append, List.mem_map, List.mem_filter] at hop2
      rcases hop2 with ⟨e, ⟨heS, het⟩, hform⟩ | ⟨e, ⟨heS, het⟩, hform⟩
      · exact ⟨e, Or.inl ⟨heS, het, hform.symm⟩⟩
      · exact ⟨e, Or.inr ⟨heS, het, hform.symm⟩⟩
    · exact absurd (congrArg Prod.fst heq) (by simp)
  · intro bs ss bSt sSt now hno p hp
    simp only [cycleStoreTrace, List.mem_append, List.mem_map] at hp
    rcases hp with ⟨op2, hop2, heq⟩ | ⟨op2, hop2, heq⟩
    · exfalso
      simp only [checkTimeouts, List.mem_append, List.mem_map, List.mem_filter] at hop2
      rcases hop2 with ⟨e, ⟨heS, het⟩, _⟩ | ⟨e, ⟨heS, het⟩, _⟩
      · exact hno e (List.mem_append.mpr (Or.inl heS)) het
      · exact hno e (List.mem_append.mpr (Or.inr heS)) het
    · rw [← heq]

/-- C9 witness: with no timed-out store entry, every store operation of a
cycle that produces an exact match runs after the DB commit. -/
theorem C9_store_ops_after_commit_witness :
    ∀ p ∈ cycleStoreTrace [mkEntry "a1" "t1" "ngn_to_cny" 1000]
        [mkEntry "b1" "t2" "cny_to_ngn" 1000] [] [] 25,
      p.1 = Phase.afterCommit := by
  exact C9_store_ops_after_commit.2 [mkEntry "a1" "t1" "ngn_to_cny" 1000]
    [mkEntry "b1" "t2" "cny_to_ngn" 1000] [] [] 25 (by simp)

/-- Helper: the candidate loop of `_greedy_multi` appends exactly the greedy
prefix of the eligible candidates (skips are the filter, the two breaks are
the stop condition), and the assembled total grows by the appended legs. -/
theorem greedyScan_eq (t : ℚ) (l : List (ℕ × Entry)) :
    ∀ (used : List ℕ) (acc : List (ℕ × Entry)) (s : ℚ),
      greedyScan t l used acc s =
        (acc ++ specTakeLegs t (l.filter (multiEligible t used)) s acc.length,
         s + legsSum (specTakeLegs t (l.filter (multiEligible t used)) s acc.length)) := by
  induction l with
  | nil =>
    intro used acc s
    simp [greedyScan, specTakeLegs, legsSum]
  | cons c rest ih =>
    intro used acc s
    obtain ⟨idx, e⟩ := c
    by_cases h1 : idx ∈ used
    · have hm : multiEligible t used (idx, e) = false := by simp [multiEligible, h1]
      simp only [greedyScan, if_pos h1, List.filter_cons, hm, Bool.false_eq_true,
        if_false]
      exact ih used acc s
    · by_cases h2 : entryAmount e ≤ 0
      · have hm : multiEligible t used (idx, e) = false := by
          simp [multiEligible, not_lt.mpr h2]
        simp only [greedyScan, if_neg h1, if_pos h2, List.filter_cons, hm,
          Bool.false_eq_true, if_false]
        exact ih used acc s
      · by_cases h3 : t ≤ entryAmount e
        · have hm : multiEligible t used (idx, e) = false := by
            simp [multiEligible, not_lt.mpr h3]
          simp only [greedyScan, if_neg h1, if_neg h2, if_pos h3, List.filter_cons, hm,
            Bool.false_eq_true, if_false]
          exact ih used acc s
        · have hm : multiEligible t used (idx, e) = true := by
            simp [multiEligible, h1, lt_of_not_le h2, lt_of_not_le h3]
          simp only [greedyScan, if_neg h1, if_neg h2, if_neg h3, List.filter_cons, hm,
            if_true, specTakeLegs, List.length_append, List.length_cons,
            List.length_nil]
          by_cases h4 : MULTI_MAX_LEGS ≤ acc.length + (0 + 1)
          · rw [if_pos h4, if_pos (Or.inl (by omega : MULTI_MAX_LEGS ≤ acc.length + 1))]
            simp [legsSum]
          · rw [if_neg h4]
            by_cases h5 : t ≤ s + entryAmount e
            · rw [if_pos h5,
                if_pos (Or.inr h5 :
                  MULTI_MAX_LEGS ≤ acc.length + 1 ∨ t ≤ s + entryAmount (idx, e).2)]
              simp [legsSum]
            · rw [if_neg h5, if_neg (by
                push_neg
                exact ⟨by omega, lt_of_not_le h5⟩ :
                  ¬ (MULTI_MAX_LEGS ≤ acc.length + 1 ∨
                    t ≤ s + entryAmount (idx, e).2))]
              rw [ih used (acc ++ [(idx, e)]) (s + entryAmount e), Prod.mk.injEq]
              constructor
              · simp [List.append_assoc, List.length_append]
              · simp only [legsSum, List.map_cons, List.sum_cons, List.length_append,
                  List.length_cons, List.length_nil]
                ring_nf

/-- Helper: the greedy prefix is a prefix of the eligible list. -/
theorem specTakeLegs_pre (t : ℚ) (l : List (ℕ × Entry)) :
    ∀ (s : ℚ) (n : ℕ), specTakeLegs t l s n <+: l := by
  induction l with
  | nil => intro s n; simp [specTakeLegs]
  | cons c rest ih =>
    intro s n
    rw [specTakeLegs]
    by_cases h : MULTI_MAX_LEGS ≤ n + 1 ∨ t ≤ s + entryAmount c.2
    · rw [if_pos h]
      exact ⟨rest, rfl⟩
    · rw [if_neg h]
      obtain ⟨r, hr⟩ := ih (s + entryAmount c.2) (n + 1)
      exact ⟨r, by rw [List.cons_append, hr]⟩

/-- Helper: the greedy prefix never exceeds the leg cap. -/
theorem specTakeLegs_length (t : ℚ) (l : List (ℕ × Entry)) :
    ∀ (s : ℚ) (n : ℕ), n < MULTI_MAX_LEGS →
      (specTakeLegs t l s n).length + n ≤ MULTI_MAX_LEGS := by
  induction l with
  | nil => intro s n _; simp [specTakeLegs]; omega
  | cons c rest ih =>
    intro s n hn
    rw [specTakeLegs]
    by_cases h : MULTI_MAX_LEGS ≤ n + 1 ∨ t ≤ s + entryAmount c.2
    · rw [if_pos h]
      simp
      omega
    · rw [if_neg h]
      have hcap : ¬ MULTI_MAX_LEGS ≤ n + 1 := fun hc => h (Or.inl hc)
      have := ih (s + entryAmount c.2) (n + 1) (by omega)
      simp only [List.length_cons]
      omega

/-- Helper: an empty greedy prefix has zero assembled total, and from a
positive total the prefix is nonempty. -/
theorem legsSum_nil : legsSum [] = 0 := rfl

/-- Helper: `_greedy_multi` in spec terms: for a positive target amount it
emits a match exactly when the greedily assembled total reaches 95 percent
of the target, and the emitted descriptor carries the legs, `matched_amount
= min(assembled, target)`, the leg count and `fill_pct =
assembled/target*100`; the consumed leg indices are appended to the used
set. -/
theorem greedyMulti_spec (target : Entry) (candidates : List Entry) (used : List ℕ)
    (ht : 0 < entryAmount target) :
    greedyMulti target candidates used =
      (if MULTI_MIN_FILL_PCT / 100 * entryAmount target ≤
          legsSum (specLegs target candidates used) then
        some (MatchDesc.multiM target ((specLegs target candidates used).map Prod.snd)
            (min (legsSum (specLegs target candidates used)) (entryAmount target))
            ((specLegs target candidates used).map Prod.snd).length
            (legsSum (specLegs target candidates used) / entryAmount target * 100),
          used ++ (specLegs target candidates used).map Prod.fst)
      else none) := by
  have hns : ¬ entryAmount target ≤ 0 := not_le.mpr ht
  rw [greedyMulti, if_neg hns, greedyScan_eq]
  simp only [List.nil_append, List.length_nil, zero_add]
  rw [show specTakeLegs (entryAmount target)
      ((enumFrom 0 candidates).filter (multiEligible (entryAmount target) used)) 0 0 =
      specLegs target candidates used from rfl]
  by_cases hST : specLegs target candidates used = []
  · have hneg : ¬ MULTI_MIN_FILL_PCT / 100 * entryAmount target ≤ 0 := by
      rw [MULTI_MIN_FILL_PCT]
      intro hcon
      nlinarith
    rw [if_pos hST, hST, legsSum_nil, if_neg hneg]
  · rw [if_neg hST]
    have hiff : legsSum (specLegs target candidates used) / entryAmount target * 100 <
        MULTI_MIN_FILL_PCT ↔
        ¬ MULTI_MIN_FILL_PCT / 100 * entryAmount target ≤
          legsSum (specLegs target candidates used) := by
      rw [MULTI_MIN_FILL_PCT, div_mul_eq_mul_div, div_lt_iff₀ ht]
      constructor
      · intro h hcon
        nlinarith
      · intro h
        rw [not_le] at h
        nlinarith
    by_cases hfill : MULTI_MIN_FILL_PCT / 100 * entryAmount target ≤
        legsSum (specLegs target candidates used)
    · rw [if_neg (by rw [hiff]; exact not_not_intro hfill), if_pos hfill]
    · rw [if_pos (hiff.mpr hfill), if_neg hfill]

/-- C10: the per-leg Match records `_persist_multi_match` inserts for one
multi match carry each leg's full amount (`matched_amount = leg_amount`),
so their sum is the assembled total, while the descriptor's
`matched_amount` is `min(assembled, target)`; at a concrete input (target
100, legs 60 and 50) the per-leg sum 110 strictly exceeds both the target
amount 100 and the descriptor's matched amount 100, because the greedy
accumulation adds the final leg in full when it overshoots. -/
theorem C10_multi_per_leg_records :
    (∀ (target : Entry) (candidates : List Entry) (used : List ℕ) (cid : String)
        (tgt : Entry) (legs : List Entry) (matched : ℚ) (lc : ℕ) (fp : ℚ)
        (u2 : List ℕ),
      greedyMulti target candidates used =
          some (MatchDesc.multiM tgt legs matched lc fp, u2) →
      (persistMultiRecords cid (MatchDesc.multiM tgt legs matched lc fp)).map
          MatchRecord.matched_amount = legs.map entryAmount ∧
      ((persistMultiRecords cid (MatchDesc.multiM tgt legs matched lc fp)).map
          MatchRecord.matched_amount).sum = (legs.map entryAmount).sum ∧
      matched = min ((legs.map entryAmount).sum) (entryAmount target)) ∧
    (greedyMulti (mkEntry "tgt" "tt" "ngn_to_cny" 100)
        [mkEntry "c60" "t0" "cny_to_ngn" 60, mkEntry "c50" "t1" "cny_to_ngn" 50] [] =
      some (MatchDesc.multiM (mkEntry "tgt" "tt" "ngn_to_cny" 100)
          [mkEntry "c60" "t0" "cny_to_ngn" 60, mkEntry "c50" "t1" "cny_to_ngn" 50]
          100 2 110, [0, 1]) ∧
     ((persistMultiRecords "MC-1"
        (MatchDesc.multiM (mkEntry "tgt" "tt" "ngn_to_cny" 100)
          [mkEntry "c60" "t0" "cny_to_ngn" 60, mkEntry "c50" "t1" "cny_to_ngn" 50]
          100 2 110)).map MatchRecord.matched_amount).sum = 110 ∧
     entryAmount (mkEntry "tgt" "tt" "ngn_to_cny" 100) < 110 ∧ (100:ℚ) < 110) := by
  constructor
  · intro target candidates used cid tgt legs matched lc fp u2 hsome
    have ht : 0 < entryAmount target := by
      by_contra hle
      rw [greedyMulti, if_pos (not_lt.mp hle)] at hsome
      exact Option.noConfusion hsome
    rw [greedyMulti_spec target candidates used ht] at hsome
    by_cases hc : MULTI_MIN_FILL_PCT / 100 * entryAmount target ≤
        legsSum (specLegs target candidates used)
    · rw [if_pos hc, Option.some.injEq, Prod.mk.injEq, MatchDesc.multiM.injEq] at hsome
      obtain ⟨⟨htgt, hlegs, hmatched, hlc, hfp⟩, hu⟩ := hsome
      subst hlegs
      refine ⟨?_, ?_, ?_⟩
      · simp [persistMultiRecords, List.map_map, Function.comp_def]
      · simp [persistMultiRecords, List.map_map, Function.comp_def]
      · rw [← hmatched]
        have hsum : legsSum (specLegs target candidates used) =
            (((specLegs target candidates used).map Prod.snd).map entryAmount).sum := by
          simp [legsSum, List.map_map, Function.comp_def]
        rw [hsum]
    · rw [if_neg hc] at hsome
      exact Option.noConfusion hsome
  · refine ⟨?_, ?_, by norm_num [entryAmount, mkEntry], by norm_num⟩
    · norm_num [greedyMulti, greedyScan, enumFrom, entryAmount, mkEntry,
        MULTI_MAX_LEGS, MULTI_MIN_FILL_PCT, min_def]
      exact fun h => absurd h (List.cons_ne_nil _ _)
    · norm_num [persistMultiRecords, entryAmount, mkEntry, isBuySide]

/-- C10 witness: the per-leg record facts at the concrete overshooting
input (target 100, candidates 60 and 50). -/
theorem C10_multi_per_leg_records_witness :
    (persistMultiRecords "MC-1"
        (MatchDesc.multiM (mkEntry "tgt" "tt" "ngn_to_cny" 100)
          [mkEntry "c60" "t0" "cny_to_ngn" 60, mkEntry "c50" "t1" "cny_to_ngn" 50]
          100 2 110)).map MatchRecord.matched_amount =
      [mkEntry "c60" "t0" "cny_to_ngn" 60, mkEntry "c50" "t1" "cny_to_ngn" 50].map
        entryAmount ∧
    ((persistMultiRecords "MC-1"
        (MatchDesc.multiM (mkEntry "tgt" "tt" "ngn_to_cny" 100)
          [mkEntry "c60" "t0" "cny_to_ngn" 60, mkEntry "c50" "t1" "cny_to_ngn" 50]
          100 2 110)).map MatchRecord.matched_amount).sum =
      ([mkEntry "c60" "t0" "cny_to_ngn" 60, mkEntry "c50" "t1" "cny_to_ngn" 50].map
        entryAmount).sum ∧
    (100:ℚ) = min
      (([mkEntry "c60" "t0" "cny_to_ngn" 60, mkEntry "c50" "t1" "cny_to_ngn" 50].map
        entryAmount).sum)
      (entryAmount (mkEntry "tgt" "tt" "ngn_to_cny" 100)) :=
  C10_multi_per_leg_records.1 (mkEntry "tgt" "tt" "ngn_to_cny" 100)
    [mkEntry "c60" "t0" "cny_to_ngn" 60, mkEntry "c50" "t1" "cny_to_ngn" 50] []
    "MC-1" (mkEntry "tgt" "tt" "ngn_to_cny" 100)
    [mkEntry "c60" "t0" "cny_to_ngn" 60, mkEntry "c50" "t1" "cny_to_ngn" 50]
    100 2 110 [0, 1] (by
      norm_num [greedyMulti, greedyScan, enumFrom, entryAmount, mkEntry,
        MULTI_MAX_LEGS, MULTI_MIN_FILL_PCT, min_def]
      exact fun h => absurd h (List.cons_ne_nil _ _))

/-- C3 counterexample: a candidate with amount 0 is unconsumed, earlier in
list order, and strictly smaller than the target's amount 100, yet the
emitted match skips it (one leg, the 95-amount candidate): the code also
requires a candidate's amount to be positive, which the claim's
description omits. -/
theorem C3_counterexample :
    entryAmount (mkEntry "c0" "t0" "cny_to_ngn" 0) <
      entryAmount (mkEntry "tgt" "tt" "ngn_to_cny" 100) ∧
    greedyMulti (mkEntry "tgt" "tt" "ngn_to_cny" 100)
        [mkEntry "c0" "t0" "cny_to_ngn" 0, mkEntry "c95" "t1" "cny_to_ngn" 95] [] =
      some (MatchDesc.multiM (mkEntry "tgt" "tt" "ngn_to_cny" 100)
          [mkEntry "c95" "t1" "cny_to_ngn" 95] 95 1 95, [1]) := by
  refine ⟨by norm_num [entryAmount, mkEntry], ?_⟩
  norm_num [greedyMulti, greedyScan, enumFrom, entryAmount, mkEntry,
    MULTI_MAX_LEGS, MULTI_MIN_FILL_PCT, min_def]

/-- Helper: every index produced by `enumFrom n` is at least `n`. -/
theorem enumFrom_fst_ge {α : Type} (l : List α) :
    ∀ (n : ℕ) (p : ℕ × α), p ∈ enumFrom n l → n ≤ p.1 := by
  induction l with
  | nil => intro n p hp; cases hp
  | cons a rest ih =>
    intro n p hp
    rcases List.mem_cons.mp hp with h | h
    · subst h; exact le_refl n
    · exact le_trans (Nat.le_succ n) (ih (n + 1) p h)

/-- Helper: the entry of an enumerated pair is an element of the list. -/
theorem enumFrom_snd_mem {α : Type} (l : List α) :
    ∀ (n : ℕ) (p : ℕ × α), p ∈ enumFrom n l → p.2 ∈ l := by
  induction l with
  | nil => intro n p hp; cases hp
  | cons a rest ih =>
    intro n p hp
    rcases List.mem_cons.mp hp with h | h
    · subst h; exact List.mem_cons_self a rest
    · exact List.mem_cons_of_mem a (ih (n + 1) p h)

/-- Helper: the indices produced by `enumFrom` are pairwise distinct. -/
theorem enumFrom_fst_nodup {α : Type} (l : List α) :
    ∀ n : ℕ, ((enumFrom n l).map Prod.fst).Nodup := by
  induction l with
  | nil => intro n; simp [enumFrom]
  | cons a rest ih =>
    intro n
    simp only [enumFrom, List.map_cons, List.nodup_cons]
    refine ⟨?_, ih (n + 1)⟩
    intro hmem
    obtain ⟨p, hp, hfst⟩ := List.mem_map.mp hmem
    have := enumFrom_fst_ge rest (n + 1) p hp
    omega

/-- Helper: over a duplicate-free list, equal enumerated entries carry equal
indices. -/
theorem enumFrom_fst_eq_of_snd_eq {α : Type} (l : List α) (hl : l.Nodup) :
    ∀ (n : ℕ) (p q : ℕ × α), p ∈ enumFrom n l → q ∈ enumFrom n l →
      p.2 = q.2 → p.1 = q.1 := by
  induction l with
  | nil => intro n p q hp; cases hp
  | cons a rest ih =>
    intro n p q hp hq heq
    obtain ⟨hna, hnr⟩ := List.nodup_cons.mp hl
    rcases List.mem_cons.mp hp with h | h <;> rcases List.mem_cons.mp hq with h2 | h2
    · rw [h, h2]
    · exfalso
      subst h
      have : q.2 ∈ rest := enumFrom_snd_mem rest (n + 1) q h2
      rw [← heq] at this
      exact hna this
    · exfalso
      subst h2
      have : p.2 ∈ rest := enumFrom_snd_mem rest (n + 1) p h
      rw [heq] at this
      exact hna this
    · exact ih hnr (n + 1) p q h h2 heq

/-- Helper: pairs drawn from an enumeration of a list with pairwise
distinct ids, at pairwise distinct indices, carry pairwise distinct ids. -/
theorem pairs_ids_nodup (l : List Entry) (P : List (ℕ × Entry))
    (hmem : ∀ p ∈ P, p ∈ enumFrom 0 l) (hnd : (P.map Prod.fst).Nodup)
    (hids : (l.map Entry.id).Nodup) :
    ((P.map Prod.snd).map Entry.id).Nodup := by
  have hlnd : l.Nodup := hids.of_map
  induction P with
  | nil => simp
  | cons p P2 ih =>
    simp only [List.map_cons, List.nodup_cons]
    obtain ⟨hpf, hPf⟩ := List.nodup_cons.mp hnd
    refine ⟨?_, ih (fun q hq => hmem q (List.mem_cons_of_mem p hq)) hPf⟩
    intro hcon
    obtain ⟨eid, heid, hide⟩ := List.mem_map.mp hcon
    obtain ⟨q, hq, hqe⟩ := List.mem_map.mp heid
    have hpq : p.2 = q.2 := by
      have hpl : p.2 ∈ l := enumFrom_snd_mem l 0 p (hmem p (List.mem_cons_self p P2))
      have hql : q.2 ∈ l :=
        enumFrom_snd_mem l 0 q (hmem q (List.mem_cons_of_mem p hq))
      have hinj := List.inj_on_of_nodup_map hids
      exact hinj hpl hql (by rw [hqe, hide])
    have hfst : p.1 = q.1 :=
      enumFrom_fst_eq_of_snd_eq l hlnd 0 p q (hmem p (List.mem_cons_self p P2))
        (hmem q (List.mem_cons_of_mem p hq)) hpq
    exact hpf (hfst ▸ List.mem_map_of_mem Prod.fst hq)

/-- Helper: an emitted multi match consumes its target plus a list of leg
pairs drawn from the enumerated candidate list, fresh for the used set and
at pairwise distinct indices, which are appended to the used set. -/
theorem greedyMulti_pairs (target : Entry) (candidates : List Entry)
    (used u2 : List ℕ) (m : MatchDesc)
    (h : greedyMulti target candidates used = some (m, u2)) :
    ∃ L : List (ℕ × Entry),
      u2 = used ++ L.map Prod.fst ∧
      consumedEntries m = target :: L.map Prod.snd ∧
      (∀ p ∈ L, p ∈ enumFrom 0 candidates ∧ ¬ p.1 ∈ used) ∧
      (L.map Prod.fst).Nodup := by
  have ht : 0 < entryAmount target := by
    by_contra hle
    rw [greedyMulti, if_pos (not_lt.mp hle)] at h
    exact Option.noConfusion h
  rw [greedyMulti_spec target candidates used ht] at h
  by_cases hc : MULTI_MIN_FILL_PCT / 100 * entryAmount target ≤
      legsSum (specLegs target candidates used)
  · rw [if_pos hc, Option.some.injEq, Prod.mk.injEq] at h
    obtain ⟨hm, hu⟩ := h
    have hsub : List.Sublist (specLegs target candidates used) (enumFrom 0 candidates) :=
      List.Sublist.trans
        (specTakeLegs_pre (entryAmount target) _ 0 0).sublist
        (List.filter_sublist _)
    refine ⟨specLegs target candidates used, hu.symm, by rw [← hm]; rfl, ?_, ?_⟩
    · intro p hp
      have hfil : p ∈ (enumFrom 0 candidates).filter
          (multiEligible (entryAmount target) used) :=
        (specTakeLegs_pre (entryAmount target) _ 0 0).sublist.mem hp
      obtain ⟨hpe, hel⟩ := List.mem_filter.mp hfil
      refine ⟨hpe, ?_⟩
      have := (by simpa [multiEligible] using hel :
        (¬ p.1 ∈ used ∧ 0 < entryAmount p.2) ∧ entryAmount p.2 < entryAmount target)
      exact this.1.1
    · exact ((enumFrom_fst_nodup candidates 0).sublist (hsub.map Prod.fst))
  · rw [if_neg hc] at h
    exact Option.noConfusion h

/-- Helper: structure of one direction of `run_multi_matching`: the emitted
matches consume distinct target pairs (none initially used; their indices
join the target-side used set) and fresh leg pairs from the enumerated fill
pool (their indices join the fill-side used set), and the flattened
consumed entries are a permutation of those targets and legs. -/
theorem multiDir_sound (fills : List Entry) (targets : List (ℕ × Entry)) :
    ∀ (uT uF : List ℕ), (targets.map Prod.fst).Nodup →
      ∃ tc fc : List (ℕ × Entry),
        (multiDir fills targets uT uF).2.1 = uT ++ tc.map Prod.fst ∧
        (multiDir fills targets uT uF).2.2 = uF ++ fc.map Prod.fst ∧
        (((multiDir fills targets uT uF).1.map consumedEntries).flatten).Perm
          (tc.map Prod.snd ++ fc.map Prod.snd) ∧
        (∀ p ∈ tc, p ∈ targets ∧ ¬ p.1 ∈ uT) ∧ (tc.map Prod.fst).Nodup ∧
        (∀ p ∈ fc, p ∈ enumFrom 0 fills ∧ ¬ p.1 ∈ uF) ∧ (fc.map Prod.fst).Nodup := by
  induction targets with
  | nil =>
    intro uT uF _
    exact ⟨[], [], by simp [multiDir], by simp [multiDir], by simp [multiDir],
      by simp, by simp, by simp, by simp⟩
  | cons it rest ih =>
    intro uT uF hnd
    obtain ⟨i, t⟩ := it
    rw [List.map_cons, List.nodup_cons] at hnd
    obtain ⟨hni, hndr⟩ := hnd
    by_cases hiu : i ∈ uT
    · obtain ⟨tc, fc, h1, h2, h3, h4, h5, h6, h7⟩ := ih uT uF hndr
      have hstep : multiDir fills ((i, t) :: rest) uT uF =
          multiDir fills rest uT uF := by
        simp [multiDir, hiu]
      rw [hstep]
      exact ⟨tc, fc, h1, h2, h3,
        fun p hp => ⟨List.mem_cons_of_mem _ (h4 p hp).1, (h4 p hp).2⟩, h5, h6, h7⟩
    · cases hg : greedyMulti t fills uF with
      | none =>
        obtain ⟨tc, fc, h1, h2, h3, h4, h5, h6, h7⟩ := ih uT uF hndr
        have hstep : multiDir fills ((i, t) :: rest) uT uF =
            multiDir fills rest uT uF := by
          simp [multiDir, hiu, hg]
        rw [hstep]
        exact ⟨tc, fc, h1, h2, h3,
          fun p hp => ⟨List.mem_cons_of_mem _ (h4 p hp).1, (h4 p hp).2⟩, h5, h6, h7⟩
      | some mu =>
        obtain ⟨m, uF2⟩ := mu
        obtain ⟨L, hLu, hLc, hLmem, hLnd⟩ := greedyMulti_pairs t fills uF uF2 m hg
        obtain ⟨tc, fc, h1, h2, h3, h4, h5, h6, h7⟩ := ih (uT ++ [i]) uF2 hndr
        have hstep1 : (multiDir fills ((i, t) :: rest) uT uF).1 =
            m :: (multiDir fills rest (uT ++ [i]) uF2).1 := by
          simp [multiDir, hiu, hg]
        have hstep2 : (multiDir fills ((i, t) :: rest) uT uF).2 =
            (multiDir fills rest (uT ++ [i]) uF2).2 := by
          simp [multiDir, hiu, hg]
        refine ⟨(i, t) :: tc, L ++ fc, ?_, ?_, ?_, ?_, ?_, ?_, ?_⟩
        · have : (multiDir fills ((i, t) :: rest) uT uF).2.1 =
              (multiDir fills rest (uT ++ [i]) uF2).2.1 := by rw [hstep2]
          rw [this, h1]
          simp [List.append_assoc]
        · have : (multiDir fills ((i, t) :: rest) uT uF).2.2 =
              (multiDir fills rest (uT ++ [i]) uF2).2.2 := by rw [hstep2]
          rw [this, h2, hLu]
          simp [List.append_assoc]
        · rw [hstep1]
          simp only [List.map_cons, List.flatten_cons, hLc, List.map_append,
            List.cons_append, List.append_assoc]
          refine List.Perm.cons t ?_
          refine List.Perm.trans (List.Perm.append_left (L.map Prod.snd) h3) ?_
          rw [← List.append_assoc, ← List.append_assoc]
          exact List.Perm.append_right _ List.perm_append_comm
        · intro p hp
          rcases List.mem_cons.mp hp with h | h
          · rw [h]
            exact ⟨List.mem_cons_self _ _, hiu⟩
          · exact ⟨List.mem_cons_of_mem _ (h4 p h).1,
              fun hc => (h4 p h).2 (List.mem_append.mpr (Or.inl hc))⟩
        · rw [List.map_cons, List.nodup_cons]
          refine ⟨?_, h5⟩
          intro hmem
          obtain ⟨p, hp, hfst⟩ := List.mem_map.mp hmem
          have : p ∈ rest := (h4 p hp).1
          exact hni (hfst ▸ List.mem_map_of_mem Prod.fst this)
        · intro p hp
          rcases List.mem_append.mp hp with h | h
          · exact hLmem p h
          · refine ⟨(h6 p h).1, fun hc => (h6 p h).2 ?_⟩
            rw [hLu]
            exact List.mem_append.mpr (Or.inl hc)
        · rw [List.map_append, List.nodup_append]
          refine ⟨hLnd, h7, ?_⟩
          intro x hxL hxfc
          obtain ⟨p, hp, hpx⟩ := List.mem_map.mp hxfc
          apply (h6 p hp).2
          rw [hLu]
          exact List.mem_append.mpr (Or.inr (hpx ▸ hxL))

/-- C3 (amended): for a positive-amount target, `_greedy_multi` assembles
the greedy prefix of the unconsumed candidates with positive amount
strictly below the target's amount (in list order, breaking at ten legs or
once the total reaches the target), and emits a match exactly when the
assembled total reaches 95 percent of the target, with `matched_amount =
min(assembled, target)`, the leg count, and `fill_pct =
assembled/target*100` (the claim's original wording omits the positivity
requirement on candidates, refuted by the counterexample). No emitted
match has more than ten legs; exactly 95 percent fill is accepted and
94.99 percent is rejected; and `run_multi_matching`, trying pool_a targets
filled from pool_b and then pool_b targets filled from pool_a through
shared used-index sets, never consumes an entry twice: over pools with
pairwise distinct ids, the entries consumed by its matches are pairwise
distinct. -/
theorem C3_multi_matching :
    (∀ (target : Entry) (candidates : List Entry) (used : List ℕ),
      0 < entryAmount target →
      greedyMulti target candidates used =
        (if MULTI_MIN_FILL_PCT / 100 * entryAmount target ≤
            legsSum (specLegs target candidates used) then
          some (MatchDesc.multiM target
              ((specLegs target candidates used).map Prod.snd)
              (min (legsSum (specLegs target candidates used)) (entryAmount target))
              ((specLegs target candidates used).map Prod.snd).length
              (legsSum (specLegs target candidates used) / entryAmount target * 100),
            used ++ (specLegs target candidates used).map Prod.fst)
        else none)) ∧
    (∀ (target : Entry) (candidates : List Entry) (used : List ℕ) (tgt : Entry)
        (legs : List Entry) (matched : ℚ) (lc : ℕ) (fp : ℚ) (u2 : List ℕ),
      greedyMulti target candidates used =
          some (MatchDesc.multiM tgt legs matched lc fp, u2) →
      lc ≤ MULTI_MAX_LEGS) ∧
    (greedyMulti (mkEntry "tgt" "tt" "ngn_to_cny" 10000)
        [mkEntry "c" "tc" "cny_to_ngn" 9500] [] =
      some (MatchDesc.multiM (mkEntry "tgt" "tt" "ngn_to_cny" 10000)
          [mkEntry "c" "tc" "cny_to_ngn" 9500] 9500 1 95, [0])) ∧
    (greedyMulti (mkEntry "tgt" "tt" "ngn_to_cny" 10000)
        [mkEntry "c" "tc" "cny_to_ngn" 9499] [] = none) ∧
    (∀ pool_a pool_b : List Entry,
      ((pool_a ++ pool_b).map Entry.id).Nodup →
      ((((run_multi_matching pool_a pool_b).map consumedEntries).flatten).map
        Entry.id).Nodup) := by
  refine ⟨greedyMulti_spec, ?_, ?_, ?_, ?_⟩
  · intro target candidates used tgt legs matched lc fp u2 h
    have ht : 0 < entryAmount target := by
      by_contra hle
      rw [greedyMulti, if_pos (not_lt.mp hle)] at h
      exact Option.noConfusion h
    rw [greedyMulti_spec target candidates used ht] at h
    by_cases hc : MULTI_MIN_FILL_PCT / 100 * entryAmount target ≤
        legsSum (specLegs target candidates used)
    · rw [if_pos hc, Option.some.injEq, Prod.mk.injEq, MatchDesc.multiM.injEq] at h
      obtain ⟨⟨_, _, _, hlc, _⟩, _⟩ := h
      rw [← hlc, List.length_map]
      have hlen := specTakeLegs_length (entryAmount target)
        ((enumFrom 0 candidates).filter (multiEligible (entryAmount target) used)) 0 0
        (by norm_num [MULTI_MAX_LEGS])
      simpa [specLegs] using hlen
    · rw [if_neg hc] at h
      exact Option.noConfusion h
  · norm_num [greedyMulti, greedyScan, enumFrom, entryAmount, mkEntry,
      MULTI_MAX_LEGS, MULTI_MIN_FILL_PCT, min_def]
  · norm_num [greedyMulti, greedyScan, enumFrom, entryAmount, mkEntry,
      MULTI_MAX_LEGS, MULTI_MIN_FILL_PCT, min_def]
  · intro A B hids
    have hids2 : (A.map Entry.id ++ B.map Entry.id).Nodup := by
      rw [← List.map_append]
      exact hids
    obtain ⟨hAids, hBids, hABdisj⟩ := List.nodup_append.mp hids2
    obtain ⟨tc1, fc1, d11, d12, d13, d14, d15, d16, d17⟩ :=
      multiDir_sound B (enumFrom 0 A) [] [] (enumFrom_fst_nodup A 0)
    obtain ⟨tc2, fc2, d21, d22, d23, d24, d25, d26, d27⟩ :=
      multiDir_sound A (enumFrom 0 B) (multiDir B (enumFrom 0 A) [] []).2.2
        (multiDir B (enumFrom 0 A) [] []).2.1 (enumFrom_fst_nodup B 0)
    have hrun : run_multi_matching A B =
        (multiDir B (enumFrom 0 A) [] []).1 ++
          (multiDir A (enumFrom 0 B) (multiDir B (enumFrom 0 A) [] []).2.2
            (multiDir B (enumFrom 0 A) [] []).2.1).1 := rfl
    rw [hrun, List.map_append, List.flatten_append]
    apply (List.Perm.nodup_iff
      (List.Perm.map Entry.id (List.Perm.append d13 d23))).mpr
    have hsh : List.Perm
        ((tc1.map Prod.snd ++ fc1.map Prod.snd) ++
          (tc2.map Prod.snd ++ fc2.map Prod.snd))
        ((tc1.map Prod.snd ++ fc2.map Prod.snd) ++
          (fc1.map Prod.snd ++ tc2.map Prod.snd)) := by
      rw [List.perm_iff_count]
      intro x
      simp only [List.count_append]
      omega
    apply (List.Perm.nodup_iff (List.Perm.map Entry.id hsh)).mpr
    rw [List.map_append, List.nodup_append]
    refine ⟨?_, ?_, ?_⟩
    · have hform : (tc1.map Prod.snd ++ fc2.map Prod.snd).map Entry.id =
          ((tc1 ++ fc2).map Prod.snd).map Entry.id := by
        simp [List.map_append]
      rw [hform]
      apply pairs_ids_nodup A (tc1 ++ fc2) ?_ ?_ hAids
      · intro p hp
        rcases List.mem_append.mp hp with h | h
        · exact (d14 p h).1
        · exact (d26 p h).1
      · rw [List.map_append, List.nodup_append]
        refine ⟨d15, d27, ?_⟩
        intro x hx1 hx2
        obtain ⟨p, hp, hpx⟩ := List.mem_map.mp hx2
        apply (d26 p hp).2
        rw [d11, List.nil_append, hpx]
        exact hx1
    · have hform : (fc1.map Prod.snd ++ tc2.map Prod.snd).map Entry.id =
          ((fc1 ++ tc2).map Prod.snd).map Entry.id := by
        simp [List.map_append]
      rw [hform]
      apply pairs_ids_nodup B (fc1 ++ tc2) ?_ ?_ hBids
      · intro p hp
        rcases List.mem_append.mp hp with h | h
        · exact (d16 p h).1
        · exact (d24 p h).1
      · rw [List.map_append, List.nodup_append]
        refine ⟨d17, d25, ?_⟩
        intro x hx1 hx2
        obtain ⟨p, hp, hpx⟩ := List.mem_map.mp hx2
        apply (d24 p hp).2
        rw [d12, List.nil_append, hpx]
        exact hx1
    · intro x hx1 hx2
      have hxA : x ∈ A.map Entry.id := by
        obtain ⟨e, he, hex⟩ := List.mem_map.mp hx1
        rcases List.mem_append.mp he with h | h
        · obtain ⟨p, hp, hpe⟩ := List.mem_map.mp h
          exact hex ▸ List.mem_map_of_mem Entry.id
            (hpe ▸ enumFrom_snd_mem A 0 p (d14 p hp).1)
        · obtain ⟨p, hp, hpe⟩ := List.mem_map.mp h
          exact hex ▸ List.mem_map_of_mem Entry.id
            (hpe ▸ enumFrom_snd_mem A 0 p (d26 p hp).1)
      have hxB : x ∈ B.map Entry.id := by
        obtain ⟨e, he, hex⟩ := List.mem_map.mp hx2
        rcases List.mem_append.mp he with h | h
        · obtain ⟨p, hp, hpe⟩ := List.mem_map.mp h
          exact hex ▸ List.mem_map_of_mem Entry.id
            (hpe ▸ enumFrom_snd_mem B 0 p (d16 p hp).1)
        · obtain ⟨p, hp, hpe⟩ := List.mem_map.mp h
          exact hex ▸ List.mem_map_of_mem Entry.id
            (hpe ▸ enumFrom_snd_mem B 0 p (d24 p hp).1)
      exact hABdisj hxA hxB

/-- C3 witness: the no-reuse conclusion at concrete pools with distinct
ids: a 100 target filled by 60 and 50 consumes three distinct entries. -/
theorem C3_multi_matching_witness :
    ((((run_multi_matching [mkEntry "a1" "t1" "ngn_to_cny" 100]
        [mkEntry "b1" "t2" "cny_to_ngn" 60, mkEntry "b2" "t3" "cny_to_ngn" 50]).map
      consumedEntries).flatten).map Entry.id).Nodup :=
  C3_multi_matching.2.2.2.2 [mkEntry "a1" "t1" "ngn_to_cny" 100]
    [mkEntry "b1" "t2" "cny_to_ngn" 60, mkEntry "b2" "t3" "cny_to_ngn" 50]
    (by decide)

/-- Helper: the referenced-id list of a match is the id image of its
consumed entries. -/
theorem matchConsumedIds_eq (m : MatchDesc) :
    matchConsumedIds m = (consumedEntries m).map Entry.id := by
  cases m <;> rfl

/-- Helper: membership in a pass's referenced ids. -/
theorem mem_allConsumedIds (s : String) (ms : List MatchDesc) :
    s ∈ allConsumedIds ms ↔ ∃ m ∈ ms, ∃ e ∈ consumedEntries m, e.id = s := by
  rw [allConsumedIds, List.mem_flatten]
  constructor
  · rintro ⟨l, hl, hsl⟩
    obtain ⟨m, hm, rfl⟩ := List.mem_map.mp hl
    rw [matchConsumedIds_eq] at hsl
    obtain ⟨e, he, heid⟩ := List.mem_map.mp hsl
    exact ⟨m, hm, e, he, heid⟩
  · rintro ⟨m, hm, e, he, heid⟩
    refine ⟨matchConsumedIds m, List.mem_map_of_mem _ hm, ?_⟩
    rw [matchConsumedIds_eq]
    exact heid ▸ List.mem_map_of_mem Entry.id he

/-- Helper: membership in the scrub set: a referenced id that is not the
empty string (which `_remove_matched_entries` discards). -/
theorem mem_scrubIds (s : String) (ms : List MatchDesc) :
    s ∈ scrubIds ms ↔ s ∈ allConsumedIds ms ∧ ¬ s = "" := by
  rw [scrubIds, allConsumedIds, List.mem_filter]
  simp

/-- Helper: entries surviving the scrub come from the original pool and
carry no scrubbed id. -/
theorem removeMatched_fst (e : Entry) (b s : List Entry) (ms : List MatchDesc)
    (h : e ∈ (removeMatchedEntries b s ms).1) :
    e ∈ b ∧ ¬ e.id ∈ scrubIds ms := by
  have := List.mem_filter.mp h
  simpa using this

/-- Helper: the sell-side analogue of `removeMatched_fst`. -/
theorem removeMatched_snd (e : Entry) (b s : List Entry) (ms : List MatchDesc)
    (h : e ∈ (removeMatchedEntries b s ms).2) :
    e ∈ s ∧ ¬ e.id ∈ scrubIds ms := by
  have := List.mem_filter.mp h
  simpa using this

/-- Helper: a successful exact scan returns an element of the scanned list. -/
theorem exactScan_mem (aAmt tol : ℚ) (uB : List ℕ) (l : List (ℕ × Entry))
    (jb : ℕ × Entry) (h : exactScan aAmt tol uB l = some jb) : jb ∈ l := by
  induction l with
  | nil => cases h
  | cons p rest ih =>
    obtain ⟨j, b⟩ := p
    by_cases h1 : j ∈ uB
    · simp only [exactScan, if_pos h1] at h
      exact List.mem_cons_of_mem _ (ih h)
    · by_cases h2 : entryAmount b ≤ 0
      · simp only [exactScan, if_neg h1, if_pos h2] at h
        exact List.mem_cons_of_mem _ (ih h)
      · by_cases h3 : |aAmt - entryAmount b| / aAmt * 100 ≤ tol
        · simp only [exactScan, if_neg h1, if_neg h2, if_pos h3,
            Option.some.injEq] at h
          rw [← h]
          exact List.mem_cons_self _ _
        · simp only [exactScan, if_neg h1, if_neg h2, if_neg h3] at h
          exact List.mem_cons_of_mem _ (ih h)

/-- Helper: a successful partial scan returns an element of the scanned
list. -/
theorem partScan_mem (aAmt : ℚ) (uB : List ℕ) (l : List (ℕ × Entry))
    (jb : ℕ × Entry) (h : partScan aAmt uB l = some jb) : jb ∈ l := by
  induction l with
  | nil => cases h
  | cons p rest ih =>
    obtain ⟨j, b⟩ := p
    by_cases h1 : j ∈ uB
    · simp only [partScan, if_pos h1] at h
      exact List.mem_cons_of_mem _ (ih h)
    · by_cases h2 : entryAmount b ≤ 0
      · simp only [partScan, if_neg h1, if_pos h2] at h
        exact List.mem_cons_of_mem _ (ih h)
      · by_cases h3 : 0 < min aAmt (entryAmount b) ∧
            min aAmt (entryAmount b) / min aAmt (entryAmount b) * 100 < PARTIAL_MIN_PCT
        · simp only [partScan, if_neg h1, if_neg h2, if_pos h3] at h
          exact List.mem_cons_of_mem _ (ih h)
        · by_cases h4 : 0 < max aAmt (entryAmount b) ∧
              min aAmt (entryAmount b) / max aAmt (entryAmount b) * 100 < PARTIAL_MIN_PCT
          · simp only [partScan, if_neg h1, if_neg h2, if_neg h3, if_pos h4] at h
            exact List.mem_cons_of_mem _ (ih h)
          · simp only [partScan, if_neg h1, if_neg h2, if_neg h3, if_neg h4,
              Option.some.injEq] at h
            rw [← h]
            exact List.mem_cons_self _ _

/-- Helper: exact matches only consume entries of the two input lists. -/
theorem exactGo_mem (poolB : List (ℕ × Entry)) (tol : ℚ) (l : List (ℕ × Entry)) :
    ∀ (uA uB : List ℕ) (m : MatchDesc), m ∈ exactGo poolB tol l uA uB →
      ∀ e ∈ consumedEntries m,
        (∃ p ∈ l, p.2 = e) ∨ (∃ p ∈ poolB, p.2 = e) := by
  induction l with
  | nil => intro uA uB m hm; cases hm
  | cons ia rest ih =>
    intro uA uB m hm e he
    obtain ⟨i, a⟩ := ia
    have hwiden : ((∃ p ∈ rest, p.2 = e) ∨ (∃ p ∈ poolB, p.2 = e)) →
        ((∃ p ∈ (i, a) :: rest, p.2 = e) ∨ (∃ p ∈ poolB, p.2 = e)) := by
      rintro (⟨p, hp, hpe⟩ | hr)
      · exact Or.inl ⟨p, List.mem_cons_of_mem _ hp, hpe⟩
      · exact Or.inr hr
    by_cases h1 : i ∈ uA
    · simp only [exactGo, if_pos h1] at hm
      exact hwiden (ih uA uB m hm e he)
    · by_cases h2 : entryAmount a ≤ 0
      · simp only [exactGo, if_neg h1, if_pos h2] at hm
        exact hwiden (ih uA uB m hm e he)
      · cases hscan : exactScan (entryAmount a) tol uB poolB with
        | none =>
          simp only [exactGo, if_neg h1, if_neg h2, hscan] at hm
          exact hwiden (ih uA uB m hm e he)
        | some jb =>
          obtain ⟨j, b⟩ := jb
          simp only [exactGo, if_neg h1, if_neg h2, hscan] at hm
          rcases List.mem_cons.mp hm with hh | hh
          · rw [hh] at he
            rcases List.mem_cons.mp he with hea | heb
            · exact Or.inl ⟨(i, a), List.mem_cons_self _ _, hea.symm⟩
            · have : e = b := by simpa using heb
              exact Or.inr ⟨(j, b), exactScan_mem _ _ _ _ _ hscan, this.symm⟩
          · exact hwiden (ih (i :: uA) (j :: uB) m hh e he)

/-- Helper: partial matches only consume entries of the two input lists. -/
theorem partGo_mem (poolB : List (ℕ × Entry)) (l : List (ℕ × Entry)) :
    ∀ (uA uB : List ℕ) (m : MatchDesc), m ∈ partGo poolB l uA uB →
      ∀ e ∈ consumedEntries m,
        (∃ p ∈ l, p.2 = e) ∨ (∃ p ∈ poolB, p.2 = e) := by
  induction l with
  | nil => intro uA uB m hm; cases hm
  | cons ia rest ih =>
    intro uA uB m hm e he
    obtain ⟨i, a⟩ := ia
    have hwiden : ((∃ p ∈ rest, p.2 = e) ∨ (∃ p ∈ poolB, p.2 = e)) →
        ((∃ p ∈ (i, a) :: rest, p.2 = e) ∨ (∃ p ∈ poolB, p.2 = e)) := by
      rintro (⟨p, hp, hpe⟩ | hr)
      · exact Or.inl ⟨p, List.mem_cons_of_mem _ hp, hpe⟩
      · exact Or.inr hr
    by_cases h1 : i ∈ uA
    · simp only [partGo, if_pos h1] at hm
      exact hwiden (ih uA uB m hm e he)
    · by_cases h2 : entryAmount a ≤ 0
      · simp only [partGo, if_neg h1, if_pos h2] at hm
        exact hwiden (ih uA uB m hm e he)
      · cases hscan : partScan (entryAmount a) uB poolB with
        | none =>
          simp only [partGo, if_neg h1, if_neg h2, hscan] at hm
          exact hwiden (ih uA uB m hm e he)
        | some jb =>
          obtain ⟨j, b⟩ := jb
          simp only [partGo, if_neg h1, if_neg h2, hscan] at hm
          rcases List.mem_cons.mp hm with hh | hh
          · rw [hh] at he
            rcases List.mem_cons.mp he with hea | heb
            · exact Or.inl ⟨(i, a), List.mem_cons_self _ _, hea.symm⟩
            · have : e = b := by simpa using heb
              exact Or.inr ⟨(j, b), partScan_mem _ _ _ _ hscan, this.symm⟩
          · exact hwiden (ih (i :: uA) (j :: uB) m hh e he)

/-- Helper: `run_exact_matching` only consumes entries of its input pools. -/
theorem run_exact_consumed_mem (A B : List Entry) (tol : ℚ) (m : MatchDesc)
    (hm : m ∈ run_exact_matching A B tol) :
    ∀ e ∈ consumedEntries m, e ∈ A ∨ e ∈ B := by
  intro e he
  rcases exactGo_mem (enumFrom 0 B) tol (enumFrom 0 A) [] [] m hm e he with
    ⟨p, hp, hpe⟩ | ⟨p, hp, hpe⟩
  · exact Or.inl (hpe ▸ enumFrom_snd_mem A 0 p hp)
  · exact Or.inr (hpe ▸ enumFrom_snd_mem B 0 p hp)

/-- Helper: `run_partial_matching` only consumes entries of its input
pools. -/
theorem runPart_consumed_mem (A B : List Entry) (m : MatchDesc)
    (hm : m ∈ runPartialMatching A B) :
    ∀ e ∈ consumedEntries m, e ∈ A ∨ e ∈ B := by
  intro e he
  rcases partGo_mem (enumFrom 0 B) (enumFrom 0 A) [] [] m hm e he with
    ⟨p, hp, hpe⟩ | ⟨p, hp, hpe⟩
  · exact Or.inl (hpe ▸ enumFrom_snd_mem A 0 p hp)
  · exact Or.inr (hpe ▸ enumFrom_snd_mem B 0 p hp)

/-- Helper: `run_multi_matching` only consumes entries of its input pools. -/
theorem run_multi_consumed_mem (A B : List Entry) (m : MatchDesc)
    (hm : m ∈ run_multi_matching A B) :
    ∀ e ∈ consumedEntries m, e ∈ A ∨ e ∈ B := by
  intro e he
  obtain ⟨tc1, fc1, d11, d12, d13, d14, d15, d16, d17⟩ :=
    multiDir_sound B (enumFrom 0 A) [] [] (enumFrom_fst_nodup A 0)
  obtain ⟨tc2, fc2, d21, d22, d23, d24, d25, d26, d27⟩ :=
    multiDir_sound A (enumFrom 0 B) (multiDir B (enumFrom 0 A) [] []).2.2
      (multiDir B (enumFrom 0 A) [] []).2.1 (enumFrom_fst_nodup B 0)
  have hrun : run_multi_matching A B =
      (multiDir B (enumFrom 0 A) [] []).1 ++
        (multiDir A (enumFrom 0 B) (multiDir B (enumFrom 0 A) [] []).2.2
          (multiDir B (enumFrom 0 A) [] []).2.1).1 := rfl
  rw [hrun] at hm
  rcases List.mem_append.mp hm with hh | hh
  · have hef : e ∈ ((multiDir B (enumFrom 0 A) [] []).1.map consumedEntries).flatten := by
      rw [List.mem_flatten]
      exact ⟨consumedEntries m, List.mem_map_of_mem _ hh, he⟩
    have := d13.mem_iff.mp hef
    rcases List.mem_append.mp this with h | h
    · obtain ⟨p, hp, hpe⟩ := List.mem_map.mp h
      exact Or.inl (hpe ▸ enumFrom_snd_mem A 0 p (d14 p hp).1)
    · obtain ⟨p, hp, hpe⟩ := List.mem_map.mp h
      exact Or.inr (hpe ▸ enumFrom_snd_mem B 0 p (d16 p hp).1)
  · have hef : e ∈ ((multiDir A (enumFrom 0 B) (multiDir B (enumFrom 0 A) [] []).2.2
        (multiDir B (enumFrom 0 A) [] []).2.1).1.map consumedEntries).flatten := by
      rw [List.mem_flatten]
      exact ⟨consumedEntries m, List.mem_map_of_mem _ hh, he⟩
    have := d23.mem_iff.mp hef
    rcases List.mem_append.mp this with h | h
    · obtain ⟨p, hp, hpe⟩ := List.mem_map.mp h
      exact Or.inr (hpe ▸ enumFrom_snd_mem B 0 p (d24 p hp).1)
    · obtain ⟨p, hp, hpe⟩ := List.mem_map.mp h
      exact Or.inl (hpe ▸ enumFrom_snd_mem A 0 p (d26 p hp).1)

/-- C5 counterexample: with a buy entry whose id is the empty string
(amount 100) against two sells of 100, the entry is consumed by the exact
pass AND again by the partial pass: `_remove_matched_entries` discards the
empty id (`consumed_ids.discard("")`), so the entry survives the scrub and
is consumed twice within the cycle, refuting the claim for arbitrary
snapshot contents. -/
theorem C5_counterexample :
    "" ∈ allConsumedIds (runPipeline [mkEntry "" "ta" "ngn_to_cny" 100]
        [mkEntry "b" "tb" "cny_to_ngn" 100, mkEntry "c" "tc" "cny_to_ngn" 100]).1 ∧
    "" ∈ allConsumedIds (runPipeline [mkEntry "" "ta" "ngn_to_cny" 100]
        [mkEntry "b" "tb" "cny_to_ngn" 100, mkEntry "c" "tc" "cny_to_ngn" 100]).2.2 := by
  constructor <;>
    norm_num [runPipeline, run_exact_matching, exactGo, exactScan, enumFrom,
      removeMatchedEntries, scrubIds, matchConsumedIds, run_multi_matching,
      multiDir, greedyMulti, greedyScan, runPartialMatching, partGo, partScan,
      allConsumedIds, entryAmount, mkEntry, EXACT_TOLERANCE_PCT, MULTI_MAX_LEGS,
      MULTI_MIN_FILL_PCT, PARTIAL_MIN_PCT, min_def, max_def, List.filter]

/-- C5 (amended): for every pair of snapshots, every pool-entry id with a
NON-EMPTY id string that is consumed in pass K (exact=1, multi=2,
partial=3) appears in no match of the later passes: the orchestrator's
scrub step removes from both in-memory snapshot lists every entry whose
(non-empty) id is referenced in that pass's matches, and the matchers only
consume entries present in their input lists. The empty-string id is
excluded, as the scrub deliberately discards it (see the counterexample). -/
theorem C5_pipeline_scrub :
    ∀ (buy_pool sell_pool : List Entry) (s : String), ¬ s = "" →
      (s ∈ allConsumedIds (runPipeline buy_pool sell_pool).1 →
        ¬ s ∈ allConsumedIds (runPipeline buy_pool sell_pool).2.1 ∧
        ¬ s ∈ allConsumedIds (runPipeline buy_pool sell_pool).2.2) ∧
      (s ∈ allConsumedIds (runPipeline buy_pool sell_pool).2.1 →
        ¬ s ∈ allConsumedIds (runPipeline buy_pool sell_pool).2.2) := by
  intro buy sell s hs
  have hP1 : (runPipeline buy sell).1 = run_exact_matching buy sell := rfl
  have hP2 : (runPipeline buy sell).2.1 =
      run_multi_matching
        (removeMatchedEntries buy sell (run_exact_matching buy sell)).1
        (removeMatchedEntries buy sell (run_exact_matching buy sell)).2 := rfl
  have hP3 : (runPipeline buy sell).2.2 =
      runPartialMatching
        (removeMatchedEntries
          (removeMatchedEntries buy sell (run_exact_matching buy sell)).1
          (removeMatchedEntries buy sell (run_exact_matching buy sell)).2
          (run_multi_matching
            (removeMatchedEntries buy sell (run_exact_matching buy sell)).1
            (removeMatchedEntries buy sell (run_exact_matching buy sell)).2)).1
        (removeMatchedEntries
          (removeMatchedEntries buy sell (run_exact_matching buy sell)).1
          (removeMatchedEntries buy sell (run_exact_matching buy sell)).2
          (run_multi_matching
            (removeMatchedEntries buy sell (run_exact_matching buy sell)).1
            (removeMatchedEntries buy sell (run_exact_matching buy sell)).2)).2 := rfl
  rw [hP1, hP2, hP3]
  constructor
  · intro h1
    have hbad : s ∈ scrubIds (run_exact_matching buy sell) :=
      (mem_scrubIds s _).mpr ⟨h1, hs⟩
    constructor
    · intro hcon
      obtain ⟨m, hm, e, he, heid⟩ := (mem_allConsumedIds s _).mp hcon
      rcases run_multi_consumed_mem _ _ m hm e he with h | h
      · exact (removeMatched_fst e _ _ _ h).2 (heid ▸ hbad)
      · exact (removeMatched_snd e _ _ _ h).2 (heid ▸ hbad)
    · intro hcon
      obtain ⟨m, hm, e, he, heid⟩ := (mem_allConsumedIds s _).mp hcon
      rcases runPart_consumed_mem _ _ m hm e he with h | h
      · exact (removeMatched_fst e _ _ _
          ((removeMatched_fst e _ _ _ h).1 : _)).2 (heid ▸ hbad)
      · exact (removeMatched_snd e _ _ _
          ((removeMatched_snd e _ _ _ h).1 : _)).2 (heid ▸ hbad)
  · intro h2 hcon
    have hbad : s ∈ scrubIds (run_multi_matching
        (removeMatchedEntries buy sell (run_exact_matching buy sell)).1
        (removeMatchedEntries buy sell (run_exact_matching buy sell)).2) :=
      (mem_scrubIds s _).mpr ⟨h2, hs⟩
    obtain ⟨m, hm, e, he, heid⟩ := (mem_allConsumedIds s _).mp hcon
    rcases runPart_consumed_mem _ _ m hm e he with h | h
    · exact (removeMatched_fst e _ _ _ h).2 (heid ▸ hbad)
    · exact (removeMatched_snd e _ _ _ h).2 (heid ▸ hbad)

/-- C5 witness: in a cycle whose exact pass consumes the (non-empty) ids
a1 and b1, the multi and partial passes reference neither. -/
theorem C5_pipeline_scrub_witness :
    (("a1" : String) ∈ allConsumedIds (runPipeline
        [mkEntry "a1" "t1" "ngn_to_cny" 1000] [mkEntry "b1" "t2" "cny_to_ngn" 1000]).1 →
      ¬ ("a1" : String) ∈ allConsumedIds (runPipeline
        [mkEntry "a1" "t1" "ngn_to_cny" 1000] [mkEntry "b1" "t2" "cny_to_ngn" 1000]).2.1 ∧
      ¬ ("a1" : String) ∈ allConsumedIds (runPipeline
        [mkEntry "a1" "t1" "ngn_to_cny" 1000] [mkEntry "b1" "t2" "cny_to_ngn" 1000]).2.2) ∧
    (("a1" : String) ∈ allConsumedIds (runPipeline
        [mkEntry "a1" "t1" "ngn_to_cny" 1000] [mkEntry "b1" "t2" "cny_to_ngn" 1000]).2.1 →
      ¬ ("a1" : String) ∈ allConsumedIds (runPipeline
        [mkEntry "a1" "t1" "ngn_to_cny" 1000] [mkEntry "b1" "t2" "cny_to_ngn" 1000]).2.2) :=
  C5_pipeline_scrub [mkEntry "a1" "t1" "ngn_to_cny" 1000]
    [mkEntry "b1" "t2" "cny_to_ngn" 1000] "a1" (by decide)

end TradeFlow
